import Mathlib

/-!
Verification development for the `indexed-hash-set` crate.

The crate implements a deduplicating hash set whose entries are also
addressable by reference-counted arena indices (`RcIndex`).  Entries carry a
shared usage counter (`Rc<RefCell<usize>>` in the source); dropping all
handles of an entry makes it eligible for the explicit `drop_unused` sweep.

The embedding below is a shallow model of `src/lib.rs`:
* usage-counter cells are modelled as a growing list `cells : List Nat`,
  a cell's position in the list being its identity (the `Rc` pointer in the
  source); cells are never deallocated, mirroring the fact that an `Rc`
  cell outlives the arena entry;
* the `HashMap<InternalRef<T>, AIndex>` is modelled as an association list
  from (dereferenced) values to arena indices; the `InternalRef` keys always
  point at the boxed value of the entry their arena index resolves to, so
  dereferencing them yields exactly the stored value;
* the generational arena is an external dependency of the crate (its
  contract is given in the specification, not in `src/`); it is modelled
  from the spec: a list of slots, each free or occupied, with a per-slot
  generation counter incremented on reuse and a LIFO free list.
-/

set_option linter.unusedSectionVars false

namespace IndexedHashSetSpec

/-- Modelled from the spec: a generation-tagged index into the arena
(`generational_arena::Index`). -/
structure AIndex where
  idx : Nat
  gen : Nat
deriving DecidableEq, Repr

/-- Modelled from the spec: a slot of the generational arena, either free or
occupied; the per-slot generation counter distinguishes successive occupants. -/
inductive Slot (β : Type) where
  | free (gen : Nat)
  | occupied (gen : Nat) (val : β)
deriving DecidableEq, Repr

/-- Modelled from the spec: the generational arena — a slot list plus a LIFO
free list of slot positions available for reuse. -/
structure Arena (β : Type) where
  items : List (Slot β)
  freeList : List Nat
deriving DecidableEq, Repr

variable {β : Type}

def Slot.isOccupied : Slot β → Bool
  | .occupied _ _ => true
  | .free _ => false

/-- Modelled from the spec: fetching a slot checks the generation tag and
reports absence for stale indices. -/
def Arena.get (a : Arena β) (i : AIndex) : Option β :=
  match a.items[i.idx]? with
  | some (.occupied g v) => if g = i.gen then some v else none
  | _ => none

/-- Modelled from the spec: the number of occupied slots. -/
def Arena.len (a : Arena β) : Nat := a.items.countP Slot.isOccupied

/-- Modelled from the spec: insertion reuses the head of the free list,
bumping that slot's generation; with no free slot a fresh slot (generation 0)
is appended.  The fallback branch for a corrupt free list (head not naming a
free slot) also appends; it is unreachable for well-formed arenas. -/
def Arena.insert (a : Arena β) (v : β) : AIndex × Arena β :=
  match a.freeList with
  | [] => (⟨a.items.length, 0⟩, ⟨a.items ++ [.occupied 0 v], []⟩)
  | j :: rest =>
    match a.items[j]? with
    | some (.free g) => (⟨j, g + 1⟩, ⟨a.items.set j (.occupied (g + 1) v), rest⟩)
    | _ => (⟨a.items.length, 0⟩, ⟨a.items ++ [.occupied 0 v], rest⟩)

/-- Usage-counter cell read (`*(*self.usage_cnt).borrow()`); out-of-range
reads never occur in the source (an `Rc` cell always exists) and default
to 0 here. -/
def cellGet (cells : List Nat) (c : Nat) : Nat := cells.getD c 0

/-- Usage-counter increment (`*cnt += 1` in `RcIndex::new` / `Clone`). -/
def cellBump (cells : List Nat) (c : Nat) : List Nat :=
  cells.set c (cellGet cells c + 1)

/-- Usage-counter decrement (`*cnt -= 1` in `Drop for RcIndex`). -/
def cellDec (cells : List Nat) (c : Nat) : List Nat :=
  cells.set c (cellGet cells c - 1)

/-- Entry of the set (`struct Entry<T>`): the stored element together with
the identity of its usage-counter cell. -/
structure Entry (α : Type) where
  elem : α
  cntId : Nat
deriving DecidableEq, Repr

/-- Reference-counted index (`struct RcIndex`): the arena index plus the
identity of the shared usage-counter cell. -/
structure RcIndex where
  inner : AIndex
  cntId : Nat
deriving DecidableEq, Repr

/-- The indexed hash set (`struct IndexedHashSet<T>`): the arena of entries,
the value-to-index map, and the pool of usage-counter cells backing the
`Rc<RefCell<usize>>` cells of the source. -/
structure IndexedHashSet (α : Type) where
  arena : Arena (Entry α)
  map : List (α × AIndex)
  cells : List Nat
deriving DecidableEq, Repr

variable {α : Type} [DecidableEq α]

/-- Lookup in the value-to-index map (`self.map.get(elem.wrap())`). -/
def mapFind? : List (α × AIndex) → α → Option AIndex
  | [], _ => none
  | p :: rest, v => if p.1 = v then some p.2 else mapFind? rest v

/-- Lookup returning the stored key
(`self.map.get_key_value(elem.wrap()).map(|(k, _)| k.as_ref())`). -/
def mapFindKey? : List (α × AIndex) → α → Option α
  | [], _ => none
  | p :: rest, v => if p.1 = v then some p.1 else mapFindKey? rest v

/-- Map insertion with `HashMap::insert` semantics: an existing key keeps its
key but has its value replaced; a new key is added. -/
def mapInsert : List (α × AIndex) → α → AIndex → List (α × AIndex)
  | [], k, i => [(k, i)]
  | p :: rest, k, i => if p.1 = k then (p.1, i) :: rest else p :: mapInsert rest k i

/-- Map removal with `HashMap::remove` semantics (keys are unique, so
removing the first match suffices). -/
def mapErase : List (α × AIndex) → α → List (α × AIndex)
  | [], _ => []
  | p :: rest, k => if p.1 = k then rest else p :: mapErase rest k

namespace IndexedHashSet

/-- A new, empty set (`IndexedHashSet::new`). -/
def new : IndexedHashSet α := ⟨⟨[], []⟩, [], []⟩

/-- Number of elements in the set, including the unused ones (`len`). -/
def len (s : IndexedHashSet α) : Nat := s.arena.len

/-- Usage count of an element found by hash (`get_cnt`).  The source indexes
the arena directly (`&self.arena[idx]`), which would panic on a stale map
entry; that branch is modelled as `none` and is unreachable for well-formed
states. -/
def get_cnt (s : IndexedHashSet α) (elem : α) : Option Nat :=
  match mapFind? s.map elem with
  | none => none
  | some idx =>
    match s.arena.get idx with
    | some e => some (cellGet s.cells e.cntId)
    | none => none

/-- Reference to the stored element by hash (`get_ref_by_hash`); returns the
map key, which points at the entry's stored value. -/
def get_ref_by_hash (s : IndexedHashSet α) (elem : α) : Option α :=
  mapFindKey? s.map elem

/-- Reference to the stored element by index (`get_ref_by_index`); fallible
because the index can be from another `IndexedHashSet`. -/
def get_ref_by_index (s : IndexedHashSet α) (idx : RcIndex) : Option α :=
  (s.arena.get idx.inner).map Entry.elem

/-- Conversion of an arena index into an `RcIndex` (`aidx_to_rcidx`),
incrementing the usage counter (`RcIndex::new`).  The source panics when the
arena index is absent; that branch is modelled as `none` and is unreachable
for well-formed states. -/
def aidx_to_rcidx (s : IndexedHashSet α) (a_idx : AIndex) :
    Option (RcIndex × IndexedHashSet α) :=
  match s.arena.get a_idx with
  | some e => some (⟨a_idx, e.cntId⟩, { s with cells := cellBump s.cells e.cntId })
  | none => none

/-- Index of the stored element by hash (`get_index_by_hash`); creates a
handle, incrementing the usage counter through the `RefCell`. -/
def get_index_by_hash (s : IndexedHashSet α) (elem : α) :
    Option RcIndex × IndexedHashSet α :=
  match mapFind? s.map elem with
  | none => (none, s)
  | some a_idx =>
    match s.aidx_to_rcidx a_idx with
    | some (rc, s') => (some rc, s')
    | none => (none, s)

/-- Unconditional insertion (`insert_unchecked`): a fresh entry with a fresh
counter cell at 0, arena insertion, map registration, and an `RcIndex` whose
construction bumps the counter to 1. -/
def insert_unchecked (s : IndexedHashSet α) (elem : α) :
    RcIndex × IndexedHashSet α :=
  let cid := s.cells.length
  let cells₀ := s.cells ++ [0]
  let r := s.arena.insert ⟨elem, cid⟩
  let map' := mapInsert s.map elem r.1
  (⟨r.1, cid⟩, { arena := r.2, map := map', cells := cellBump cells₀ cid })

/-- Insertion (`insert`): `none` and no mutation when an equal element is
already present, otherwise `insert_unchecked`. -/
def insert (s : IndexedHashSet α) (elem : α) :
    Option RcIndex × IndexedHashSet α :=
  if (mapFind? s.map elem).isSome then (none, s)
  else
    let r := s.insert_unchecked elem
    (some r.1, r.2)

/-- Find-or-insert (`get_or_insert`): the index of the element if present
(with its counter bumped), else an unchecked insertion.  The outer `none`
models the panic inside `aidx_to_rcidx` and is unreachable for well-formed
states. -/
def get_or_insert (s : IndexedHashSet α) (elem : α) :
    Option (RcIndex × IndexedHashSet α) :=
  match mapFind? s.map elem with
  | some a_idx => s.aidx_to_rcidx a_idx
  | none => some (s.insert_unchecked elem)

end IndexedHashSet

/-- Occupied slots (with their positions) whose entry satisfies `p`,
scanning in ascending slot order as `Arena::retain` does. -/
def collectP (p : Entry α → Bool) : Nat → List (Slot (Entry α)) → List (Nat × Entry α)
  | _, [] => []
  | i, .occupied _ e :: rest =>
    if p e then (i, e) :: collectP p (i + 1) rest else collectP p (i + 1) rest
  | i, .free _ :: rest => collectP p (i + 1) rest

/-- Slot after the reclamation sweep: an occupied slot whose entry satisfies
`p` is freed (keeping its generation, to be bumped on reuse). -/
def sweepSlot (p : Entry α → Bool) : Slot (Entry α) → Slot (Entry α)
  | .occupied g e => if p e then .free g else .occupied g e
  | .free g => .free g

/-- Slot list after freeing every occupied slot whose entry satisfies `p`. -/
def sweep (p : Entry α → Bool) (items : List (Slot (Entry α))) : List (Slot (Entry α)) :=
  items.map (sweepSlot p)

/-- Test of a slot being occupied by an entry satisfying `p`. -/
def slotP (p : Entry α → Bool) : Slot (Entry α) → Bool
  | .occupied _ e => p e
  | .free _ => false

namespace IndexedHashSet

/-- Deferred reclamation (`drop_unused`): every entry whose usage counter is
zero is removed from the arena (its slot freed and pushed on the free list,
most recently freed first) and its key removed from the map; returns
`before - arena.len()` as the source does. -/
def drop_unused (s : IndexedHashSet α) : Nat × IndexedHashSet α :=
  let dead : Entry α → Bool := fun e => cellGet s.cells e.cntId == 0
  let before := s.arena.len
  let removed := collectP dead 0 s.arena.items
  let arena' : Arena (Entry α) :=
    ⟨sweep dead s.arena.items, (removed.map Prod.fst).reverse ++ s.arena.freeList⟩
  let map' := removed.foldl (fun m pr => mapErase m pr.2.elem) s.map
  let s' : IndexedHashSet α := ⟨arena', map', s.cells⟩
  (before - s'.arena.len, s')

/-- Iteration (`iter`): the elements of all entries with nonzero usage
counter, in ascending slot order. -/
def iter (s : IndexedHashSet α) : List α :=
  (collectP (fun e => cellGet s.cells e.cntId != 0) 0 s.arena.items).map
    (fun pr => pr.2.elem)

end IndexedHashSet

/-- Usage count as read through a handle (`RcIndex::cnt`): the current value
of the shared counter cell. -/
def rcCnt (s : IndexedHashSet α) (h : RcIndex) : Nat := cellGet s.cells h.cntId

/-- Direct indexing `set[&rc_idx]` panics exactly when `get_ref_by_index`
returns `None` (`self.get_ref_by_index(index).unwrap()`). -/
def indexPanics (s : IndexedHashSet α) (idx : RcIndex) : Bool :=
  (s.get_ref_by_index idx).isNone

/-- Client-visible operations on one set, used to describe arbitrary
interleavings of container calls and handle lifecycle events. -/
inductive Op (α : Type) where
  | insertOp (v : α)
  | getOrInsertOp (v : α)
  | lookupHandleOp (v : α)
  | cloneOp (k : Nat)
  | dropOp (k : Nat)
  | dropUnusedOp

/-- Configuration of a run: the set together with the list of live handles
held by the client. -/
structure Config (α : Type) where
  s : IndexedHashSet α
  handles : List RcIndex

/-- Step of the client-operation machine.  Handle operations name a live
handle by its position; out-of-range positions are no-ops (a client can only
clone or drop handles it holds).  `cloneOp` performs `Clone for RcIndex`
(counter increment), `dropOp` performs `Drop for RcIndex` (counter
decrement). -/
def step (cfg : Config α) : Op α → Config α
  | .insertOp v =>
    match cfg.s.insert v with
    | (some rc, s') => ⟨s', rc :: cfg.handles⟩
    | (none, s') => ⟨s', cfg.handles⟩
  | .getOrInsertOp v =>
    match cfg.s.get_or_insert v with
    | some (rc, s') => ⟨s', rc :: cfg.handles⟩
    | none => cfg
  | .lookupHandleOp v =>
    match cfg.s.get_index_by_hash v with
    | (some rc, s') => ⟨s', rc :: cfg.handles⟩
    | (none, s') => ⟨s', cfg.handles⟩
  | .cloneOp k =>
    match cfg.handles[k]? with
    | some h => ⟨{ cfg.s with cells := cellBump cfg.s.cells h.cntId }, h :: cfg.handles⟩
    | none => cfg
  | .dropOp k =>
    match cfg.handles[k]? with
    | some h => ⟨{ cfg.s with cells := cellDec cfg.s.cells h.cntId }, cfg.handles.eraseIdx k⟩
    | none => cfg
  | .dropUnusedOp => ⟨(cfg.s.drop_unused).2, cfg.handles⟩

/-- Run of a list of client operations from the empty set with no handles. -/
def runOps (ops : List (Op α)) : Config α := ops.foldl step ⟨.new, []⟩

/-- Structural well-formedness of one slot: an occupied slot's entry is
registered in the map under its own value at exactly this slot, and its
counter-cell id is in range. -/
def slotOK (s : IndexedHashSet α) (i : Nat) : Bool :=
  match s.arena.items.getD i (.free 0) with
  | .occupied g e =>
    decide (mapFind? s.map e.elem = some ⟨i, g⟩) && decide (e.cntId < s.cells.length)
  | .free _ => true

/-- Structural well-formedness of a free-list position: in range and naming
a free slot. -/
def freeOK (s : IndexedHashSet α) (j : Nat) : Bool :=
  decide (j < s.arena.items.length) &&
    match s.arena.items.getD j (.free 0) with
    | .free _ => true
    | .occupied _ _ => false

/-- Well-formedness of a set state: every map pair resolves through the
arena to an entry holding exactly its key; map keys are unique; every
occupied slot is registered in the map and has an in-range counter cell;
the free list names distinct free slots. -/
def WF (s : IndexedHashSet α) : Prop :=
  (∀ p ∈ s.map, (s.arena.get p.2).map Entry.elem = some p.1) ∧
  (s.map.map Prod.fst).Nodup ∧
  (∀ i, i < s.arena.items.length → slotOK s i = true) ∧
  (∀ j ∈ s.arena.freeList, freeOK s j = true) ∧
  s.arena.freeList.Nodup

/-- Number of live handles whose shared counter cell is `c`. -/
def countHandles (hs : List RcIndex) (c : Nat) : Nat :=
  hs.countP (fun h => decide (h.cntId = c))

/-- Handle-side invariant of a configuration: every counter cell holds
exactly the number of live handles sharing it, and every live handle
resolves through the arena to the entry sharing its cell. -/
def HandlesOK (cfg : Config α) : Prop :=
  (∀ c : Nat, cellGet cfg.s.cells c = countHandles cfg.handles c) ∧
  (∀ h ∈ cfg.handles, (cfg.s.arena.get h.inner).map Entry.cntId = some h.cntId)

/-- Full invariant of reachable configurations. -/
def Inv (cfg : Config α) : Prop := WF cfg.s ∧ HandlesOK cfg

instance (s : IndexedHashSet α) : Decidable (WF s) := by
  unfold WF; infer_instance

/-! Lemmas about counter cells. -/

@[simp]
theorem length_cellBump (cells : List Nat) (c : Nat) :
    (cellBump cells c).length = cells.length := by
  simp [cellBump]

@[simp]
theorem length_cellDec (cells : List Nat) (c : Nat) :
    (cellDec cells c).length = cells.length := by
  simp [cellDec]

theorem cellGet_eq_getElem? (cells : List Nat) (c : Nat) :
    cellGet cells c = (cells[c]?).getD 0 := by
  simp [cellGet, List.getD_eq_getElem?_getD]

theorem cellGet_of_le (cells : List Nat) {c : Nat} (h : cells.length ≤ c) :
    cellGet cells c = 0 := by
  simp [cellGet_eq_getElem?, List.getElem?_eq_none h]

theorem cellGet_cellBump_self (cells : List Nat) {c : Nat} (h : c < cells.length) :
    cellGet (cellBump cells c) c = cellGet cells c + 1 := by
  simp [cellGet_eq_getElem?, cellBump]
  rw [List.getElem?_set_self']
  simp [h]

theorem cellGet_cellBump_ne (cells : List Nat) {c c' : Nat} (h : c' ≠ c) :
    cellGet (cellBump cells c) c' = cellGet cells c' := by
  simp [cellGet_eq_getElem?, cellBump]
  rw [List.getElem?_set_ne (Ne.symm h)]

theorem cellGet_cellDec_self (cells : List Nat) {c : Nat} (h : c < cells.length) :
    cellGet (cellDec cells c) c = cellGet cells c - 1 := by
  simp [cellGet_eq_getElem?, cellDec]
  rw [List.getElem?_set_self']
  simp [h]

theorem cellGet_cellDec_ne (cells : List Nat) {c c' : Nat} (h : c' ≠ c) :
    cellGet (cellDec cells c) c' = cellGet cells c' := by
  simp [cellGet_eq_getElem?, cellDec]
  rw [List.getElem?_set_ne (Ne.symm h)]

theorem cellGet_append_lt (cells l : List Nat) {c : Nat} (h : c < cells.length) :
    cellGet (cells ++ l) c = cellGet cells c := by
  simp [cellGet_eq_getElem?, List.getElem?_append_left h]

@[simp]
theorem cellGet_append_self (cells : List Nat) (x : Nat) :
    cellGet (cells ++ [x]) cells.length = x := by
  simp [cellGet_eq_getElem?]

/-! Lemmas about the value-to-index map. -/

theorem mapFind?_eq_none_iff (m : List (α × AIndex)) (v : α) :
    mapFind? m v = none ↔ v ∉ m.map Prod.fst := by
  induction m with
  | nil => simp [mapFind?]
  | cons p rest ih =>
    by_cases h : p.1 = v
    · simp [mapFind?, h]
    · simp [mapFind?, h, ih, Ne.symm h]

theorem mapFind?_mem {m : List (α × AIndex)} {v : α} {a : AIndex}
    (h : mapFind? m v = some a) : (v, a) ∈ m := by
  induction m with
  | nil => simp [mapFind?] at h
  | cons p rest ih =>
    by_cases hp : p.1 = v
    · simp [mapFind?, hp] at h
      have hpa : p = (v, a) := by cases p; simp_all
      rw [← hpa]
      exact List.mem_cons_self p rest
    · simp [mapFind?, hp] at h
      exact List.mem_cons_of_mem _ (ih h)

theorem mapFind?_of_mem_nodup {m : List (α × AIndex)} {p : α × AIndex}
    (hm : (m.map Prod.fst).Nodup) (hp : p ∈ m) : mapFind? m p.1 = some p.2 := by
  induction m with
  | nil => simp at hp
  | cons q rest ih =>
    simp only [List.map_cons, List.nodup_cons] at hm
    rcases List.mem_cons.mp hp with h | h
    · subst h; simp [mapFind?]
    · have hne : q.1 ≠ p.1 := by
        intro hq
        exact hm.1 (hq ▸ List.mem_map_of_mem Prod.fst h)
      simp [mapFind?, hne, ih hm.2 h]

theorem mapFind?_mapInsert (m : List (α × AIndex)) (k : α) (i : AIndex) (x : α) :
    mapFind? (mapInsert m k i) x = if x = k then some i else mapFind? m x := by
  induction m with
  | nil =>
    by_cases h : x = k
    · simp [mapInsert, mapFind?, h]
    · simp [mapInsert, mapFind?, h, Ne.symm h]
  | cons p rest ih =>
    by_cases hp : p.1 = k
    · by_cases hx : p.1 = x
      · simp [mapInsert, mapFind?, hp, hx, hx ▸ hp]
      · have hxk : ¬x = k := fun he => hx (he ▸ hp)
        have hkx : ¬k = x := fun he => hxk he.symm
        simp [mapInsert, mapFind?, hp, hx, hxk, hkx]
    · by_cases hx : p.1 = x
      · have : ¬x = k := fun he => hp (hx.trans he)
        simp [mapInsert, mapFind?, hp, hx, this]
      · simp [mapInsert, mapFind?, hp, hx, ih]

theorem mapFindKey?_eq (m : List (α × AIndex)) (v : α) :
    mapFindKey? m v = if (mapFind? m v).isSome then some v else none := by
  induction m with
  | nil => simp [mapFindKey?, mapFind?]
  | cons p rest ih =>
    by_cases h : p.1 = v
    · simp [mapFindKey?, mapFind?, h]
    · simp [mapFindKey?, mapFind?, h, ih]

theorem keys_mapInsert_of_absent {m : List (α × AIndex)} {k : α}
    (h : mapFind? m k = none) (i : AIndex) :
    (mapInsert m k i).map Prod.fst = m.map Prod.fst ++ [k] := by
  induction m with
  | nil => simp [mapInsert]
  | cons p rest ih =>
    simp only [mapFind?] at h
    by_cases hp : p.1 = k
    · simp [hp] at h
    · simp [hp] at h
      simp [mapInsert, hp, ih h]

theorem mapErase_sublist (m : List (α × AIndex)) (k : α) :
    (mapErase m k).Sublist m := by
  induction m with
  | nil => simp [mapErase]
  | cons p rest ih =>
    by_cases hp : p.1 = k
    · simp [mapErase, hp]
    · simp [mapErase, hp]
      exact ih

theorem mapFind?_mapErase_ne {m : List (α × AIndex)} {k x : α} (h : x ≠ k) :
    mapFind? (mapErase m k) x = mapFind? m x := by
  induction m with
  | nil => simp [mapErase]
  | cons p rest ih =>
    have hkx : ¬k = x := fun he => h he.symm
    by_cases hp : p.1 = k
    · simp [mapErase, mapFind?, hp, hkx]
    · by_cases hx : p.1 = x
      · simp [mapErase, mapFind?, hp, hx, hkx, h]
      · simp [mapErase, mapFind?, hp, hx, hkx, h, ih]

theorem mapFind?_mapErase_self {m : List (α × AIndex)} {k : α}
    (hm : (m.map Prod.fst).Nodup) : mapFind? (mapErase m k) k = none := by
  induction m with
  | nil => simp [mapErase, mapFind?]
  | cons p rest ih =>
    simp only [List.map_cons, List.nodup_cons] at hm
    by_cases hp : p.1 = k
    · simp only [mapErase, if_pos hp]
      rw [mapFind?_eq_none_iff]
      exact hp ▸ hm.1
    · simp [mapErase, mapFind?, hp, ih hm.2]

/-! Lemmas about the arena. -/

theorem countP_set_of {γ : Type} {l : List γ} {j : Nat} {y : γ} (p : γ → Bool) (x : γ)
    (h : l[j]? = some y) (hy : p y = false) (hx : p x = true) :
    (l.set j x).countP p = l.countP p + 1 := by
  induction l generalizing j with
  | nil => simp at h
  | cons z rest ih =>
    cases j with
    | zero =>
      simp at h
      subst h
      simp [List.countP_cons, hy, hx]
    | succ j' =>
      simp at h
      by_cases hz : p z
      · simp [List.countP_cons, hz, ih h]
      · simp [List.countP_cons, hz, ih h]

theorem Arena.get_eq_some_iff (a : Arena β) (i : AIndex) (v : β) :
    a.get i = some v ↔ a.items[i.idx]? = some (.occupied i.gen v) := by
  unfold Arena.get
  cases hj : a.items[i.idx]? with
  | none => simp
  | some slot =>
    cases slot with
    | free g => simp
    | occupied g w =>
      constructor
      · intro hs
        by_cases hg : g = i.gen
        · simp [hg] at hs
          simp [hg, hs]
        · simp [hg] at hs
      · intro hs
        simp at hs
        simp [hs]

theorem Arena.get_insert_self (a : Arena β) (v : β) :
    (a.insert v).2.get (a.insert v).1 = some v := by
  cases hf : a.freeList with
  | nil => simp [Arena.insert, hf, Arena.get]
  | cons j rest =>
    cases hj : a.items[j]? with
    | none => simp [Arena.insert, hf, hj, Arena.get]
    | some slot =>
      cases slot with
      | free g =>
        have hlt : j < a.items.length := (List.getElem?_eq_some.mp hj).1
        simp [Arena.insert, hf, hj, Arena.get]
        rw [List.getElem?_set_self']
        simp [hlt]
      | occupied g w => simp [Arena.insert, hf, hj, Arena.get]

theorem Arena.get_insert_fresh (a : Arena β) (v : β) :
    a.get (a.insert v).1 = none := by
  cases hf : a.freeList with
  | nil =>
    simp [Arena.insert, hf, Arena.get, List.getElem?_eq_none (le_refl a.items.length)]
  | cons j rest =>
    cases hj : a.items[j]? with
    | none =>
      simp [Arena.insert, hf, hj, Arena.get, List.getElem?_eq_none (le_refl a.items.length)]
    | some slot =>
      cases slot with
      | free g => simp [Arena.insert, hf, hj, Arena.get]
      | occupied g w =>
        simp [Arena.insert, hf, hj, Arena.get, List.getElem?_eq_none (le_refl a.items.length)]

theorem get_append_of_ne (items : List (Slot β)) (fl fl' : List Nat) (v : β) {i : AIndex}
    (h : i ≠ ⟨items.length, 0⟩) :
    Arena.get ⟨items ++ [.occupied 0 v], fl'⟩ i = Arena.get ⟨items, fl⟩ i := by
  rcases lt_trichotomy i.idx items.length with hlt | heq | hgt
  · simp [Arena.get, List.getElem?_append_left hlt]
  · have hg : i.gen ≠ 0 := by
      intro h0; apply h; cases i; simp_all
    rw [Arena.get, Arena.get]
    have h1 : (items ++ [Slot.occupied 0 v])[i.idx]? = some (.occupied 0 v) := by
      rw [heq]; simp
    have h2 : items[i.idx]? = none := List.getElem?_eq_none (by omega)
    rw [h1, h2]
    simp [Ne.symm hg]
  · rw [Arena.get, Arena.get]
    have h1 : (items ++ [Slot.occupied 0 v])[i.idx]? = none :=
      List.getElem?_eq_none (by simp; omega)
    have h2 : items[i.idx]? = none := List.getElem?_eq_none (by omega)
    rw [h1, h2]

theorem get_set_of_ne (items : List (Slot β)) (fl fl' : List Nat) {j g : Nat} (v : β)
    (hj : items[j]? = some (.free g)) {i : AIndex} (h : i ≠ ⟨j, g + 1⟩) :
    Arena.get ⟨items.set j (.occupied (g + 1) v), fl'⟩ i = Arena.get ⟨items, fl⟩ i := by
  by_cases hidx : i.idx = j
  · have hg : i.gen ≠ g + 1 := by
      intro h0; apply h; cases i; simp_all
    rw [Arena.get, Arena.get]
    have h1 : (items.set j (.occupied (g + 1) v))[i.idx]? = some (.occupied (g + 1) v) := by
      rw [hidx, List.getElem?_set_self']
      simp [(List.getElem?_eq_some.mp hj).1]
    rw [h1, hidx, hj]
    simp [Ne.symm hg]
  · rw [Arena.get, Arena.get, List.getElem?_set_ne (fun he => hidx he.symm)]

theorem Arena.get_insert_ne (a : Arena β) (v : β) {i : AIndex}
    (h : i ≠ (a.insert v).1) : (a.insert v).2.get i = a.get i := by
  cases hf : a.freeList with
  | nil =>
    simp only [Arena.insert, hf] at h ⊢
    exact get_append_of_ne a.items a.freeList [] v h
  | cons j rest =>
    cases hj : a.items[j]? with
    | none =>
      simp only [Arena.insert, hf, hj] at h ⊢
      exact get_append_of_ne a.items a.freeList rest v h
    | some slot =>
      cases slot with
      | free g =>
        simp only [Arena.insert, hf, hj] at h ⊢
        exact get_set_of_ne a.items a.freeList rest v hj h
      | occupied g w =>
        simp only [Arena.insert, hf, hj] at h ⊢
        exact get_append_of_ne a.items a.freeList rest v h


theorem Arena.len_insert (a : Arena β) (v : β) : (a.insert v).2.len = a.len + 1 := by
  cases hf : a.freeList with
  | nil =>
    simp [Arena.insert, hf, Arena.len, List.countP_append, List.countP_cons, Slot.isOccupied]
  | cons j rest =>
    cases hj : a.items[j]? with
    | none =>
      simp [Arena.insert, hf, hj, Arena.len, List.countP_append, List.countP_cons,
        Slot.isOccupied]
    | some slot =>
      cases slot with
      | free g =>
        simp only [Arena.insert, hf, hj, Arena.len]
        exact countP_set_of Slot.isOccupied _ hj rfl rfl
      | occupied g w =>
        simp [Arena.insert, hf, hj, Arena.len, List.countP_append, List.countP_cons,
          Slot.isOccupied]

/-! Lemmas about the reclamation scan (`collectP`, `sweep`). -/

theorem collectP_mem_ge {p : Entry α → Bool} {items : List (Slot (Entry α))}
    {n j : Nat} {e : Entry α} (h : (j, e) ∈ collectP p n items) : n ≤ j := by
  induction items generalizing n with
  | nil => simp [collectP] at h
  | cons z rest ih =>
    cases z with
    | free g =>
      simp only [collectP] at h
      exact Nat.le_of_succ_le (ih h)
    | occupied g e₀ =>
      by_cases hp : p e₀
      · simp only [collectP, if_pos hp, List.mem_cons] at h
        rcases h with h | h
        · simp [Prod.ext_iff] at h
          omega
        · exact Nat.le_of_succ_le (ih h)
      · simp only [collectP, if_neg hp] at h
        exact Nat.le_of_succ_le (ih h)

theorem collectP_mem_iff {p : Entry α → Bool} {items : List (Slot (Entry α))}
    {n i : Nat} {e : Entry α} :
    (n + i, e) ∈ collectP p n items ↔
      ((∃ g, items[i]? = some (.occupied g e)) ∧ p e = true) := by
  induction items generalizing n i with
  | nil => simp [collectP]
  | cons z rest ih =>
    cases i with
    | zero =>
      cases z with
      | free g =>
        simp only [collectP]
        constructor
        · intro h
          have := collectP_mem_ge h
          omega
        · intro h
          simp at h
      | occupied g e₀ =>
        by_cases hp : p e₀
        · simp only [collectP, if_pos hp, List.mem_cons]
          constructor
          · intro h
            rcases h with h | h
            · have he : e = e₀ := by simpa [Prod.ext_iff] using h
              subst he
              exact ⟨⟨g, by simp⟩, hp⟩
            · have := collectP_mem_ge h
              omega
          · intro h
            rcases h with ⟨⟨g', hg⟩, hpe⟩
            simp at hg
            left
            simp [hg.2]
        · simp only [collectP, if_neg hp]
          constructor
          · intro h
            have := collectP_mem_ge h
            omega
          · intro h
            rcases h with ⟨⟨g', hg⟩, hpe⟩
            simp at hg
            rw [hg.2] at hp
            exact absurd hpe (by simpa using hp)
    | succ i' =>
      have harith : n + (i' + 1) = (n + 1) + i' := by omega
      cases z with
      | free g =>
        simp only [collectP]
        rw [harith, ih]
        simp
      | occupied g e₀ =>
        by_cases hp : p e₀
        · simp only [collectP, if_pos hp, List.mem_cons]
          rw [harith, ih]
          constructor
          · intro h
            rcases h with h | h
            · exfalso
              have : n + 1 + i' = n := by
                have := congrArg Prod.fst h
                simpa using this
              omega
            · simpa using h
          · intro h
            right
            simpa using h
        · simp only [collectP, if_neg hp]
          rw [harith, ih]
          simp

theorem collectP_mem_zero_iff {p : Entry α → Bool} {items : List (Slot (Entry α))}
    {j : Nat} {e : Entry α} :
    (j, e) ∈ collectP p 0 items ↔
      ((∃ g, items[j]? = some (.occupied g e)) ∧ p e = true) := by
  have := @collectP_mem_iff α _ p items 0 j e
  simpa using this

theorem collectP_fst_sublist (p : Entry α → Bool) (items : List (Slot (Entry α)))
    (n : Nat) :
    ((collectP p n items).map Prod.fst).Sublist (List.range' n items.length) := by
  induction items generalizing n with
  | nil => simp [collectP]
  | cons z rest ih =>
    have hr : List.range' n (z :: rest).length = n :: List.range' (n + 1) rest.length := by
      simp [List.range'_succ]
    cases z with
    | free g =>
      rw [hr]
      simp only [collectP]
      exact (ih (n + 1)).cons n
    | occupied g e₀ =>
      by_cases hp : p e₀
      · rw [hr]
        simp only [collectP, if_pos hp, List.map_cons]
        exact (ih (n + 1)).cons₂ n
      · rw [hr]
        simp only [collectP, if_neg hp]
        exact (ih (n + 1)).cons n

theorem collectP_fst_nodup (p : Entry α → Bool) (items : List (Slot (Entry α))) (n : Nat) :
    ((collectP p n items).map Prod.fst).Nodup :=
  (collectP_fst_sublist p items n).nodup (List.nodup_range' _ _)

theorem length_collectP (p : Entry α → Bool) (items : List (Slot (Entry α))) (n : Nat) :
    (collectP p n items).length = items.countP (slotP p) := by
  induction items generalizing n with
  | nil => simp [collectP]
  | cons z rest ih =>
    cases z with
    | free g => simp [collectP, List.countP_cons, slotP, ih]
    | occupied g e₀ =>
      by_cases hp : p e₀
      · simp [collectP, hp, List.countP_cons, slotP, ih]
      · simp [collectP, hp, List.countP_cons, slotP, ih]

theorem countP_split {γ : Type} (l : List γ) (p q : γ → Bool) :
    l.countP p =
      l.countP (fun x => p x && q x) + l.countP (fun x => p x && !q x) := by
  induction l with
  | nil => simp
  | cons z rest ih =>
    by_cases hp : p z
    · by_cases hq : q z
      · simp [List.countP_cons, hp, hq, ih]
        omega
      · simp [List.countP_cons, hp, hq, ih]
        omega
    · simp [List.countP_cons, hp, ih]

theorem sweep_getElem? (p : Entry α → Bool) (items : List (Slot (Entry α))) (i : Nat) :
    (sweep p items)[i]? = (items[i]?).map (sweepSlot p) := by
  simp [sweep, List.getElem?_map]

theorem countP_sweep (p : Entry α → Bool) (items : List (Slot (Entry α))) :
    (sweep p items).countP Slot.isOccupied =
      items.countP (fun slot => Slot.isOccupied slot && !slotP p slot) := by
  unfold sweep
  rw [List.countP_map]
  apply List.countP_congr
  intro slot _
  cases slot with
  | free g => simp [sweepSlot, slotP, Slot.isOccupied, Function.comp]
  | occupied g e =>
    by_cases hp : p e
    · simp [sweepSlot, slotP, Slot.isOccupied, hp, Function.comp]
    · simp [sweepSlot, slotP, Slot.isOccupied, hp, Function.comp]

/-! Characterization of `insert_unchecked`. -/

theorem insert_unchecked_fst (s : IndexedHashSet α) (v : α) :
    (s.insert_unchecked v).1 =
      ⟨(s.arena.insert ⟨v, s.cells.length⟩).1, s.cells.length⟩ := rfl

theorem insert_unchecked_arena (s : IndexedHashSet α) (v : α) :
    (s.insert_unchecked v).2.arena = (s.arena.insert ⟨v, s.cells.length⟩).2 := rfl

theorem insert_unchecked_map (s : IndexedHashSet α) (v : α) :
    (s.insert_unchecked v).2.map =
      mapInsert s.map v (s.arena.insert ⟨v, s.cells.length⟩).1 := rfl

theorem insert_unchecked_cells (s : IndexedHashSet α) (v : α) :
    (s.insert_unchecked v).2.cells = s.cells ++ [1] := by
  show cellBump (s.cells ++ [0]) s.cells.length = s.cells ++ [1]
  unfold cellBump
  rw [cellGet_append_self]
  rw [List.set_append_right _ _ (le_refl s.cells.length)]
  simp

theorem get_insert_unchecked_self (s : IndexedHashSet α) (v : α) :
    (s.insert_unchecked v).2.arena.get (s.insert_unchecked v).1.inner =
      some ⟨v, s.cells.length⟩ := by
  rw [insert_unchecked_arena, insert_unchecked_fst]
  exact Arena.get_insert_self s.arena ⟨v, s.cells.length⟩

theorem get_insert_unchecked_fresh (s : IndexedHashSet α) (v : α) :
    s.arena.get (s.insert_unchecked v).1.inner = none := by
  rw [insert_unchecked_fst]
  exact Arena.get_insert_fresh s.arena ⟨v, s.cells.length⟩

theorem get_insert_unchecked_ne (s : IndexedHashSet α) (v : α) {i : AIndex}
    (h : i ≠ (s.insert_unchecked v).1.inner) :
    (s.insert_unchecked v).2.arena.get i = s.arena.get i := by
  rw [insert_unchecked_arena]
  rw [insert_unchecked_fst] at h
  exact Arena.get_insert_ne s.arena ⟨v, s.cells.length⟩ h

theorem len_insert_unchecked (s : IndexedHashSet α) (v : α) :
    (s.insert_unchecked v).2.len = s.len + 1 := by
  show (s.insert_unchecked v).2.arena.len = s.arena.len + 1
  rw [insert_unchecked_arena]
  exact Arena.len_insert s.arena ⟨v, s.cells.length⟩

/-! Characterization of `drop_unused`. -/

/-- Predicate selecting the entries that `drop_unused` removes: usage
counter currently zero. -/
def deadP (s : IndexedHashSet α) : Entry α → Bool :=
  fun e => cellGet s.cells e.cntId == 0

theorem deadP_eq_false_iff (s : IndexedHashSet α) (e : Entry α) :
    deadP s e = false ↔ cellGet s.cells e.cntId ≠ 0 := by
  simp [deadP]

theorem deadP_eq_true_iff (s : IndexedHashSet α) (e : Entry α) :
    deadP s e = true ↔ cellGet s.cells e.cntId = 0 := by
  simp [deadP]

theorem drop_unused_cells (s : IndexedHashSet α) :
    (s.drop_unused).2.cells = s.cells := rfl

theorem drop_unused_items (s : IndexedHashSet α) :
    (s.drop_unused).2.arena.items = sweep (deadP s) s.arena.items := rfl

theorem drop_unused_freeList (s : IndexedHashSet α) :
    (s.drop_unused).2.arena.freeList =
      ((collectP (deadP s) 0 s.arena.items).map Prod.fst).reverse ++
        s.arena.freeList := rfl

theorem drop_unused_map_eq (s : IndexedHashSet α) :
    (s.drop_unused).2.map =
      (collectP (deadP s) 0 s.arena.items).foldl
        (fun m pr => mapErase m pr.2.elem) s.map := rfl

theorem get_drop_unused (s : IndexedHashSet α) (i : AIndex) (e : Entry α) :
    (s.drop_unused).2.arena.get i = some e ↔
      (s.arena.get i = some e ∧ deadP s e = false) := by
  rw [Arena.get_eq_some_iff, Arena.get_eq_some_iff, drop_unused_items, sweep_getElem?]
  cases hj : s.arena.items[i.idx]? with
  | none => simp
  | some slot =>
    cases slot with
    | free g => simp [sweepSlot]
    | occupied g e₀ =>
      by_cases hd : deadP s e₀
      · simp only [sweepSlot, if_pos hd, Option.map_some']
        constructor
        · intro h
          simp at h
        · intro h
          rcases h with ⟨h1, h2⟩
          simp at h1
          rw [h1.2] at hd
          rw [hd] at h2
          simp at h2
      · simp only [sweepSlot, if_neg hd, Option.map_some']
        constructor
        · intro h
          simp at h
          refine ⟨by simp [h.1, h.2], ?_⟩
          rw [← h.2]
          simpa using hd
        · intro h
          simpa using h.1

theorem countP_slotP_eq (p : Entry α → Bool) (items : List (Slot (Entry α))) :
    items.countP (fun slot => Slot.isOccupied slot && slotP p slot) =
      items.countP (slotP p) := by
  apply List.countP_congr
  intro slot _
  cases slot with
  | free g => simp [Slot.isOccupied, slotP]
  | occupied g e => simp [Slot.isOccupied, slotP]

theorem drop_unused_fst (s : IndexedHashSet α) :
    (s.drop_unused).1 = (collectP (deadP s) 0 s.arena.items).length := by
  show s.arena.len - (s.drop_unused).2.arena.len = _
  have hsweep : (s.drop_unused).2.arena.len =
      s.arena.items.countP (fun slot => Slot.isOccupied slot && !slotP (deadP s) slot) := by
    show ((s.drop_unused).2.arena.items).countP Slot.isOccupied = _
    rw [drop_unused_items]
    exact countP_sweep (deadP s) s.arena.items
  have hsplit := countP_split s.arena.items Slot.isOccupied (slotP (deadP s))
  rw [hsweep, length_collectP]
  rw [countP_slotP_eq (deadP s) s.arena.items] at hsplit
  show s.arena.items.countP Slot.isOccupied - _ = _
  omega

theorem len_drop_unused (s : IndexedHashSet α) :
    (s.drop_unused).2.len = s.len - (s.drop_unused).1 := by
  have hsweep : (s.drop_unused).2.len =
      s.arena.items.countP (fun slot => Slot.isOccupied slot && !slotP (deadP s) slot) := by
    show ((s.drop_unused).2.arena.items).countP Slot.isOccupied = _
    rw [drop_unused_items]
    exact countP_sweep (deadP s) s.arena.items
  have hsplit := countP_split s.arena.items Slot.isOccupied (slotP (deadP s))
  rw [countP_slotP_eq (deadP s) s.arena.items] at hsplit
  rw [hsweep, drop_unused_fst, length_collectP]
  show _ = s.arena.items.countP Slot.isOccupied - _
  omega

theorem foldl_mapErase_keys_sublist (L : List (Nat × Entry α)) (m : List (α × AIndex)) :
    ((L.foldl (fun m' pr => mapErase m' pr.2.elem) m).map Prod.fst).Sublist
      (m.map Prod.fst) := by
  induction L generalizing m with
  | nil => simp
  | cons pr L' ih =>
    exact (ih (mapErase m pr.2.elem)).trans ((mapErase_sublist m pr.2.elem).map Prod.fst)

theorem foldl_mapErase_find? (L : List (Nat × Entry α)) (m : List (α × AIndex))
    (hm : (m.map Prod.fst).Nodup) (x : α) :
    mapFind? (L.foldl (fun m' pr => mapErase m' pr.2.elem) m) x =
      if x ∈ L.map (fun pr => pr.2.elem) then none else mapFind? m x := by
  induction L generalizing m with
  | nil => simp
  | cons pr L' ih =>
    have hm' : ((mapErase m pr.2.elem).map Prod.fst).Nodup :=
      ((mapErase_sublist m pr.2.elem).map Prod.fst).nodup hm
    by_cases hx : x = pr.2.elem
    · simp only [List.foldl_cons, List.map_cons]
      rw [ih (mapErase m pr.2.elem) hm']
      rw [if_pos (List.mem_cons.mpr (Or.inl hx))]
      by_cases hmem : x ∈ L'.map (fun pr => pr.2.elem)
      · rw [if_pos hmem]
      · rw [if_neg hmem, hx]
        exact mapFind?_mapErase_self hm
    · simp only [List.foldl_cons, List.map_cons]
      rw [ih (mapErase m pr.2.elem) hm']
      by_cases hmem : x ∈ L'.map (fun pr => pr.2.elem)
      · rw [if_pos hmem, if_pos (List.mem_cons.mpr (Or.inr hmem))]
      · rw [if_neg hmem, if_neg (fun hc => by
          rcases List.mem_cons.mp hc with hc' | hc'
          · exact hx hc'
          · exact hmem hc')]
        exact mapFind?_mapErase_ne hx

theorem foldl_mapErase_sublist (L : List (Nat × Entry α)) (m : List (α × AIndex)) :
    (L.foldl (fun m' pr => mapErase m' pr.2.elem) m).Sublist m := by
  induction L generalizing m with
  | nil => simp
  | cons pr L' ih =>
    exact (ih (mapErase m pr.2.elem)).trans (mapErase_sublist m pr.2.elem)

theorem mapInsert_of_absent {m : List (α × AIndex)} {k : α}
    (h : mapFind? m k = none) (i : AIndex) : mapInsert m k i = m ++ [(k, i)] := by
  induction m with
  | nil => simp [mapInsert]
  | cons p rest ih =>
    simp only [mapFind?] at h
    by_cases hp : p.1 = k
    · simp [hp] at h
    · simp [hp] at h
      simp [mapInsert, hp, ih h]

/-! Semantic form of well-formedness, stated through `Arena.get`; equivalent
to the executable `WF` and more convenient in preservation proofs. -/

def WFget (s : IndexedHashSet α) : Prop :=
  (∀ p ∈ s.map, (s.arena.get p.2).map Entry.elem = some p.1) ∧
  (s.map.map Prod.fst).Nodup ∧
  (∀ i e, s.arena.get i = some e →
    mapFind? s.map e.elem = some i ∧ e.cntId < s.cells.length) ∧
  (∀ j ∈ s.arena.freeList, ∃ g, s.arena.items[j]? = some (.free g)) ∧
  s.arena.freeList.Nodup

theorem WF_iff_WFget (s : IndexedHashSet α) : WF s ↔ WFget s := by
  unfold WF WFget
  refine and_congr_right fun _ => and_congr_right fun _ => ?_
  refine and_congr ?_ (and_congr ?_ Iff.rfl)
  · constructor
    · intro h3 i e hget
      rw [Arena.get_eq_some_iff] at hget
      have hlt : i.idx < s.arena.items.length := (List.getElem?_eq_some.mp hget).1
      have hok := h3 i.idx hlt
      unfold slotOK at hok
      rw [List.getD_eq_getElem?_getD, hget] at hok
      simp only [Option.getD_some] at hok
      have hok' := (Bool.and_eq_true _ _).mp hok
      refine ⟨?_, of_decide_eq_true hok'.2⟩
      have := of_decide_eq_true hok'.1
      have heta : (⟨i.idx, i.gen⟩ : AIndex) = i := by cases i; rfl
      rw [heta] at this
      exact this
    · intro h3 i hlt
      unfold slotOK
      rw [List.getD_eq_getElem?_getD]
      have hsome : s.arena.items[i]? = some s.arena.items[i] :=
        List.getElem?_eq_getElem hlt
      rw [hsome]
      simp only [Option.getD_some]
      cases hslot : s.arena.items[i] with
      | free g => simp
      | occupied g e =>
        have hget : s.arena.get ⟨i, g⟩ = some e := by
          rw [Arena.get_eq_some_iff]
          rw [hsome, hslot]
        have := h3 ⟨i, g⟩ e hget
        simp [this.1, this.2]
  · constructor
    · intro h4 j hj
      have hok := h4 j hj
      unfold freeOK at hok
      have hok' := (Bool.and_eq_true _ _).mp hok
      have hlt : j < s.arena.items.length := of_decide_eq_true hok'.1
      have hsome : s.arena.items[j]? = some s.arena.items[j] :=
        List.getElem?_eq_getElem hlt
      rw [List.getD_eq_getElem?_getD, hsome] at hok'
      simp only [Option.getD_some] at hok'
      cases hslot : s.arena.items[j] with
      | free g => exact ⟨g, by rw [hsome, hslot]⟩
      | occupied g e =>
        rw [hslot] at hok'
        simp at hok'
    · intro h4 j hj
      rcases h4 j hj with ⟨g, hg⟩
      unfold freeOK
      have hlt : j < s.arena.items.length := (List.getElem?_eq_some.mp hg).1
      rw [List.getD_eq_getElem?_getD, hg]
      simp [hlt]

theorem WFget.unique {s : IndexedHashSet α} (h : WFget s) {i i' : AIndex}
    {e e' : Entry α} (h1 : s.arena.get i = some e) (h2 : s.arena.get i' = some e')
    (he : e.elem = e'.elem) : i = i' ∧ e = e' := by
  have f1 := (h.2.2.1 i e h1).1
  have f2 := (h.2.2.1 i' e' h2).1
  rw [he] at f1
  rw [f1] at f2
  have hii : i = i' := by injection f2
  subst hii
  rw [h1] at h2
  exact ⟨rfl, by injection h2⟩

theorem WFget.mapFind?_sound {s : IndexedHashSet α} (h : WFget s) {v : α} {a : AIndex}
    (hf : mapFind? s.map v = some a) :
    ∃ e, s.arena.get a = some e ∧ e.elem = v := by
  have hmem := mapFind?_mem hf
  have := h.1 _ hmem
  cases hget : s.arena.get a with
  | none => rw [hget] at this; simp at this
  | some e =>
    rw [hget] at this
    simp at this
    exact ⟨e, rfl, this⟩

theorem WFget.present_iff {s : IndexedHashSet α} (h : WFget s) (v : α) :
    (mapFind? s.map v).isSome ↔ ∃ i e, s.arena.get i = some e ∧ e.elem = v := by
  constructor
  · intro hs
    rcases Option.isSome_iff_exists.mp hs with ⟨a, ha⟩
    rcases h.mapFind?_sound ha with ⟨e, hget, he⟩
    exact ⟨a, e, hget, he⟩
  · intro ⟨i, e, hget, he⟩
    have := (h.2.2.1 i e hget).1
    rw [he] at this
    simp [this]

/-! Preservation of well-formedness by the operations. -/

theorem WFget_new : WFget (IndexedHashSet.new : IndexedHashSet α) := by
  refine ⟨by simp [IndexedHashSet.new], by simp [IndexedHashSet.new], ?_,
    by simp [IndexedHashSet.new], by simp [IndexedHashSet.new]⟩
  intro i e hget
  rw [Arena.get_eq_some_iff] at hget
  simp [IndexedHashSet.new] at hget

theorem WFget_set_cells {s : IndexedHashSet α} (h : WFget s) {cells' : List Nat}
    (hlen : cells'.length = s.cells.length) : WFget { s with cells := cells' } := by
  refine ⟨h.1, h.2.1, ?_, h.2.2.2.1, h.2.2.2.2⟩
  intro i e hget
  have := h.2.2.1 i e hget
  exact ⟨this.1, by rw [hlen] at *; exact this.2⟩

theorem WFget_insert_unchecked {s : IndexedHashSet α} (h : WFget s) {v : α}
    (habs : mapFind? s.map v = none) : WFget (s.insert_unchecked v).2 := by
  have harena : (s.insert_unchecked v).2.arena =
      (s.arena.insert ⟨v, s.cells.length⟩).2 := rfl
  have hmapeq : (s.insert_unchecked v).2.map =
      mapInsert s.map v (s.arena.insert ⟨v, s.cells.length⟩).1 := rfl
  have hcells : (s.insert_unchecked v).2.cells = s.cells ++ [1] :=
    insert_unchecked_cells s v
  have hfresh : s.arena.get (s.arena.insert ⟨v, s.cells.length⟩).1 = none :=
    Arena.get_insert_fresh s.arena ⟨v, s.cells.length⟩
  have hself : (s.arena.insert ⟨v, s.cells.length⟩).2.get
      (s.arena.insert ⟨v, s.cells.length⟩).1 = some ⟨v, s.cells.length⟩ :=
    Arena.get_insert_self _ _
  have happ : mapInsert s.map v (s.arena.insert ⟨v, s.cells.length⟩).1 =
      s.map ++ [(v, (s.arena.insert ⟨v, s.cells.length⟩).1)] :=
    mapInsert_of_absent habs _
  refine ⟨?_, ?_, ?_, ?_, ?_⟩
  · intro p hp
    rw [hmapeq, happ] at hp
    rcases List.mem_append.mp hp with hp | hp
    · have hold := h.1 p hp
      have hpne : p.2 ≠ (s.arena.insert ⟨v, s.cells.length⟩).1 := by
        intro he
        rw [he, hfresh] at hold
        simp at hold
      rw [harena, Arena.get_insert_ne s.arena ⟨v, s.cells.length⟩ hpne]
      exact hold
    · have hp' : p = (v, (s.arena.insert ⟨v, s.cells.length⟩).1) := by simpa using hp
      rw [hp', harena]
      simp [hself]
  · rw [hmapeq, happ]
    have hnotin : v ∉ s.map.map Prod.fst := (mapFind?_eq_none_iff s.map v).mp habs
    simp [List.nodup_append, h.2.1, hnotin]
  · intro i e hget
    rw [harena] at hget
    by_cases hi : i = (s.arena.insert ⟨v, s.cells.length⟩).1
    · rw [hi, hself] at hget
      have he : e = ⟨v, s.cells.length⟩ := by injection hget with hh; exact hh.symm
      subst he
      constructor
      · rw [hmapeq, mapFind?_mapInsert]
        simp [hi]
      · rw [hcells]
        simp
    · rw [Arena.get_insert_ne s.arena ⟨v, s.cells.length⟩ hi] at hget
      have hold := h.2.2.1 i e hget
      constructor
      · rw [hmapeq, mapFind?_mapInsert]
        have hev : e.elem ≠ v := by
          intro he
          rw [he] at hold
          rw [hold.1] at habs
          exact Option.noConfusion habs
        rw [if_neg hev]
        exact hold.1
      · rw [hcells]
        simp
        omega
  · intro j hj
    rw [harena] at hj ⊢
    cases hf : s.arena.freeList with
    | nil =>
      simp only [Arena.insert, hf] at hj
      simp at hj
    | cons j₀ rest =>
      rcases h.2.2.2.1 j₀ (by rw [hf]; exact List.mem_cons_self _ _) with ⟨g₀, hg₀⟩
      simp only [Arena.insert, hf, hg₀] at hj ⊢
      have hnodup : (j₀ :: rest).Nodup := by
        have := h.2.2.2.2
        rwa [hf] at this
      have hjrest : j ∈ rest := hj
      have hjne : j ≠ j₀ := by
        intro he
        subst he
        exact (List.nodup_cons.mp hnodup).1 hjrest
      rcases h.2.2.2.1 j (by rw [hf]; exact List.mem_cons_of_mem _ hjrest) with ⟨g, hg⟩
      refine ⟨g, ?_⟩
      rw [List.getElem?_set_ne (fun he => hjne he.symm)]
      exact hg
  · rw [harena]
    cases hf : s.arena.freeList with
    | nil => simp [Arena.insert, hf]
    | cons j₀ rest =>
      rcases h.2.2.2.1 j₀ (by rw [hf]; exact List.mem_cons_self _ _) with ⟨g₀, hg₀⟩
      simp only [Arena.insert, hf, hg₀]
      have hnodup : (j₀ :: rest).Nodup := by
        have := h.2.2.2.2
        rwa [hf] at this
      exact (List.nodup_cons.mp hnodup).2

theorem WFget_drop_unused {s : IndexedHashSet α} (h : WFget s) :
    WFget (s.drop_unused).2 := by
  have hcells : (s.drop_unused).2.cells = s.cells := rfl
  have hremoved : ∀ x, x ∈ (collectP (deadP s) 0 s.arena.items).map
      (fun pr => pr.2.elem) →
      ∃ i₀ e₀, s.arena.get i₀ = some e₀ ∧ e₀.elem = x ∧ deadP s e₀ = true := by
    intro x hx
    rcases List.mem_map.mp hx with ⟨pr, hpr, hel⟩
    have hpr' : (pr.1, pr.2) ∈ collectP (deadP s) 0 s.arena.items := by
      simpa using hpr
    rcases collectP_mem_zero_iff.mp hpr' with ⟨⟨g, hg⟩, hdead⟩
    refine ⟨⟨pr.1, g⟩, pr.2, ?_, hel, hdead⟩
    rw [Arena.get_eq_some_iff]
    exact hg
  refine ⟨?_, ?_, ?_, ?_, ?_⟩
  · intro p hp
    rw [drop_unused_map_eq] at hp
    have hpmem : p ∈ s.map := (foldl_mapErase_sublist _ _).mem hp
    have hold := h.1 p hpmem
    cases hget : s.arena.get p.2 with
    | none => rw [hget] at hold; simp at hold
    | some e =>
      rw [hget] at hold
      simp only [Option.map_some'] at hold
      have hel : e.elem = p.1 := by injection hold
      have hfind : mapFind? (s.drop_unused).2.map p.1 = some p.2 := by
        have hnodup' : ((s.drop_unused).2.map.map Prod.fst).Nodup :=
          ((foldl_mapErase_sublist _ _).map Prod.fst).nodup h.2.1
        have := mapFind?_of_mem_nodup hnodup' hp
        exact this
      rw [drop_unused_map_eq, foldl_mapErase_find? _ _ h.2.1] at hfind
      by_cases hmem : p.1 ∈ (collectP (deadP s) 0 s.arena.items).map
          (fun pr => pr.2.elem)
      · rw [if_pos hmem] at hfind
        exact Option.noConfusion hfind
      · have hdead : deadP s e = false := by
          by_contra hcon
          apply hmem
          have hd : deadP s e = true := by
            cases hde : deadP s e
            · exact absurd hde hcon
            · rfl
          have : (p.2.idx, e) ∈ collectP (deadP s) 0 s.arena.items := by
            rw [collectP_mem_zero_iff]
            rw [Arena.get_eq_some_iff] at hget
            exact ⟨⟨p.2.gen, hget⟩, hd⟩
          rw [← hel]
          exact List.mem_map.mpr ⟨(p.2.idx, e), this, rfl⟩
        have : (s.drop_unused).2.arena.get p.2 = some e :=
          (get_drop_unused s p.2 e).mpr ⟨hget, hdead⟩
        rw [this]
        simp [hel]
  · rw [drop_unused_map_eq]
    exact ((foldl_mapErase_sublist _ _).map Prod.fst).nodup h.2.1
  · intro i e hget
    have hchar := (get_drop_unused s i e).mp hget
    have hold := h.2.2.1 i e hchar.1
    constructor
    · rw [drop_unused_map_eq, foldl_mapErase_find? _ _ h.2.1]
      have hnotmem : e.elem ∉ (collectP (deadP s) 0 s.arena.items).map
          (fun pr => pr.2.elem) := by
        intro hmem
        rcases hremoved e.elem hmem with ⟨i₀, e₀, hget₀, hel₀, hdead₀⟩
        have huniq := h.unique hchar.1 hget₀ hel₀.symm
        rw [← huniq.2] at hdead₀
        rw [hchar.2] at hdead₀
        exact Bool.noConfusion hdead₀
      rw [if_neg hnotmem]
      exact hold.1
    · rw [hcells]
      exact hold.2
  · intro j hj
    rw [drop_unused_freeList] at hj
    rw [drop_unused_items]
    rcases List.mem_append.mp hj with hj | hj
    · have hj' : j ∈ (collectP (deadP s) 0 s.arena.items).map Prod.fst := by
        rwa [List.mem_reverse] at hj
      rcases List.mem_map.mp hj' with ⟨pr, hpr, hfst⟩
      have hpr' : (pr.1, pr.2) ∈ collectP (deadP s) 0 s.arena.items := by
        simpa using hpr
      rcases collectP_mem_zero_iff.mp hpr' with ⟨⟨g, hg⟩, hdead⟩
      refine ⟨g, ?_⟩
      rw [sweep_getElem?, ← hfst, hg]
      simp [sweepSlot, hdead]
    · rcases h.2.2.2.1 j hj with ⟨g, hg⟩
      refine ⟨g, ?_⟩
      rw [sweep_getElem?, hg]
      simp [sweepSlot]
  · rw [drop_unused_freeList]
    rw [List.nodup_append]
    refine ⟨ ?_, h.2.2.2.2, ?_⟩
    · rw [List.nodup_reverse]
      exact collectP_fst_nodup _ _ _
    · intro j hj1 hj2
      have hj1' : j ∈ (collectP (deadP s) 0 s.arena.items).map Prod.fst := by
        rwa [List.mem_reverse] at hj1
      rcases List.mem_map.mp hj1' with ⟨pr, hpr, hfst⟩
      have hpr' : (pr.1, pr.2) ∈ collectP (deadP s) 0 s.arena.items := by
        simpa using hpr
      rcases collectP_mem_zero_iff.mp hpr' with ⟨⟨g, hg⟩, _⟩
      rcases h.2.2.2.1 j hj2 with ⟨g', hg'⟩
      rw [← hfst, hg] at hg'
      exact Slot.noConfusion (Option.some.inj hg')

/-! Lemmas about the live-handle census. -/

theorem countHandles_cons (x : RcIndex) (hs : List RcIndex) (c : Nat) :
    countHandles (x :: hs) c =
      countHandles hs c + (if x.cntId = c then 1 else 0) := by
  by_cases hx : x.cntId = c
  · simp [countHandles, List.countP_cons, hx]
  · simp [countHandles, List.countP_cons, hx]

theorem countHandles_eq_zero {hs : List RcIndex} {c : Nat}
    (h : ∀ x ∈ hs, x.cntId ≠ c) : countHandles hs c = 0 := by
  rw [countHandles, List.countP_eq_zero]
  intro x hx
  simp [h x hx]

theorem countHandles_pos {hs : List RcIndex} {x : RcIndex} {c : Nat}
    (hx : x ∈ hs) (hc : x.cntId = c) : 0 < countHandles hs c :=
  List.countP_pos_iff.mpr ⟨x, hx, by simp [hc]⟩

theorem countHandles_eraseIdx (hs : List RcIndex) (k : Nat) (x : RcIndex)
    (hk : hs[k]? = some x) (c : Nat) :
    countHandles (hs.eraseIdx k) c + (if x.cntId = c then 1 else 0) =
      countHandles hs c := by
  induction hs generalizing k with
  | nil => simp at hk
  | cons h₀ rest ih =>
    cases k with
    | zero =>
      simp at hk
      subst hk
      rw [List.eraseIdx_cons_zero, countHandles_cons]
    | succ k' =>
      simp at hk
      rw [List.eraseIdx_cons_succ, countHandles_cons, countHandles_cons]
      have := ih k' hk
      omega

theorem cellGet_append_ne (cells : List Nat) (y : Nat) {c : Nat}
    (h : c ≠ cells.length) : cellGet (cells ++ [y]) c = cellGet cells c := by
  rcases lt_or_ge c cells.length with hlt | hge
  · exact cellGet_append_lt cells [y] hlt
  · have hgt : cells.length < c := lt_of_le_of_ne hge (Ne.symm h)
    rw [cellGet_of_le cells hge, cellGet_of_le (cells ++ [y]) (by simp; omega)]

/-! Preservation of the full invariant along client operations. -/

/-- Semantic counterpart of `Inv`, used in the induction. -/
def InvG (cfg : Config α) : Prop := WFget cfg.s ∧ HandlesOK cfg

theorem Inv_iff_InvG (cfg : Config α) : Inv cfg ↔ InvG cfg :=
  and_congr (WF_iff_WFget cfg.s) Iff.rfl

theorem handle_cntId_lt {cfg : Config α} (h : InvG cfg) {x : RcIndex}
    (hx : x ∈ cfg.handles) : x.cntId < cfg.s.cells.length := by
  have hv := h.2.2 x hx
  cases hget : cfg.s.arena.get x.inner with
  | none => rw [hget] at hv; simp at hv
  | some e =>
    rw [hget] at hv
    simp only [Option.map_some'] at hv
    have he : e.cntId = x.cntId := by injection hv
    have := (h.1.2.2.1 x.inner e hget).2
    omega

theorem InvG_insert_unchecked_cons {cfg : Config α} (h : InvG cfg) {v : α}
    (habs : mapFind? cfg.s.map v = none) :
    InvG ⟨(cfg.s.insert_unchecked v).2,
      (cfg.s.insert_unchecked v).1 :: cfg.handles⟩ := by
  have hcells : (cfg.s.insert_unchecked v).2.cells = cfg.s.cells ++ [1] :=
    insert_unchecked_cells cfg.s v
  refine ⟨WFget_insert_unchecked h.1 habs, ?_, ?_⟩
  · intro c
    rw [hcells, countHandles_cons, insert_unchecked_fst]
    by_cases hc : c = cfg.s.cells.length
    · subst hc
      rw [cellGet_append_self]
      have hz : countHandles cfg.handles cfg.s.cells.length = 0 :=
        countHandles_eq_zero fun x hx =>
          Nat.ne_of_lt (handle_cntId_lt h hx)
      simp [hz]
    · rw [cellGet_append_ne cfg.s.cells 1 hc]
      have := h.2.1 c
      simp only [RcIndex.mk.injEq] at *
      rw [if_neg (fun he => hc he.symm)]
      omega
  · intro x hx
    rcases List.mem_cons.mp hx with hx | hx
    · subst hx
      rw [get_insert_unchecked_self]
      rfl
    · have hv := h.2.2 x hx
      have hxne : x.inner ≠ (cfg.s.insert_unchecked v).1.inner := by
        intro he
        rw [he, get_insert_unchecked_fresh] at hv
        simp at hv
      rw [get_insert_unchecked_ne cfg.s v hxne]
      exact hv

theorem InvG_bump_cons {cfg : Config α} (h : InvG cfg) {a : AIndex} {e : Entry α}
    (hget : cfg.s.arena.get a = some e) :
    InvG ⟨{ cfg.s with cells := cellBump cfg.s.cells e.cntId },
      (⟨a, e.cntId⟩ : RcIndex) :: cfg.handles⟩ := by
  have hlt : e.cntId < cfg.s.cells.length := (h.1.2.2.1 a e hget).2
  refine ⟨WFget_set_cells h.1 (by simp), ?_, ?_⟩
  · intro c
    rw [countHandles_cons]
    by_cases hc : c = e.cntId
    · rw [hc]
      show cellGet (cellBump cfg.s.cells e.cntId) e.cntId = _
      rw [cellGet_cellBump_self cfg.s.cells hlt, h.2.1 e.cntId]
      simp
    · show cellGet (cellBump cfg.s.cells e.cntId) c = _
      rw [cellGet_cellBump_ne cfg.s.cells hc, h.2.1 c]
      have hne : (⟨a, e.cntId⟩ : RcIndex).cntId ≠ c := fun he => hc he.symm
      simp [hne]
  · intro x hx
    rcases List.mem_cons.mp hx with hx | hx
    · subst hx
      show (cfg.s.arena.get a).map Entry.cntId = _
      rw [hget]
      rfl
    · exact h.2.2 x hx

theorem mem_of_getElem?_rc {l : List RcIndex} {k : Nat} {x : RcIndex}
    (h : l[k]? = some x) : x ∈ l := by
  rcases List.getElem?_eq_some.mp h with ⟨hlt, hEq⟩
  rw [← hEq]
  exact List.getElem_mem hlt

theorem InvG_insertStep {cfg : Config α} (h : InvG cfg) (v : α) :
    InvG (step cfg (.insertOp v)) := by
  by_cases hpre : (mapFind? cfg.s.map v).isSome
  · have hred : cfg.s.insert v = (none, cfg.s) := by
      simp [IndexedHashSet.insert, hpre]
    simp only [step, hred]
    exact ⟨h.1, h.2.1, h.2.2⟩
  · have habs : mapFind? cfg.s.map v = none := Option.not_isSome_iff_eq_none.mp hpre
    have hred : cfg.s.insert v =
        (some (cfg.s.insert_unchecked v).1, (cfg.s.insert_unchecked v).2) := by
      simp [IndexedHashSet.insert, habs]
    simp only [step, hred]
    exact InvG_insert_unchecked_cons h habs

theorem InvG_getOrInsertStep {cfg : Config α} (h : InvG cfg) (v : α) :
    InvG (step cfg (.getOrInsertOp v)) := by
  cases hf : mapFind? cfg.s.map v with
  | none =>
    have hred : cfg.s.get_or_insert v =
        some ((cfg.s.insert_unchecked v).1, (cfg.s.insert_unchecked v).2) := by
      simp [IndexedHashSet.get_or_insert, hf]
    simp only [step, hred]
    exact InvG_insert_unchecked_cons h hf
  | some a =>
    rcases h.1.mapFind?_sound hf with ⟨e, hget, _⟩
    have hred : cfg.s.get_or_insert v =
        some (⟨a, e.cntId⟩, { cfg.s with cells := cellBump cfg.s.cells e.cntId }) := by
      simp [IndexedHashSet.get_or_insert, hf, IndexedHashSet.aidx_to_rcidx, hget]
    simp only [step, hred]
    exact InvG_bump_cons h hget

theorem InvG_lookupHandleStep {cfg : Config α} (h : InvG cfg) (v : α) :
    InvG (step cfg (.lookupHandleOp v)) := by
  cases hf : mapFind? cfg.s.map v with
  | none =>
    have hred : cfg.s.get_index_by_hash v = (none, cfg.s) := by
      simp [IndexedHashSet.get_index_by_hash, hf]
    simp only [step, hred]
    exact ⟨h.1, h.2.1, h.2.2⟩
  | some a =>
    rcases h.1.mapFind?_sound hf with ⟨e, hget, _⟩
    have hred : cfg.s.get_index_by_hash v =
        (some ⟨a, e.cntId⟩, { cfg.s with cells := cellBump cfg.s.cells e.cntId }) := by
      simp [IndexedHashSet.get_index_by_hash, hf, IndexedHashSet.aidx_to_rcidx, hget]
    simp only [step, hred]
    exact InvG_bump_cons h hget

theorem InvG_cloneStep {cfg : Config α} (h : InvG cfg) (k : Nat) :
    InvG (step cfg (.cloneOp k)) := by
  cases hk : cfg.handles[k]? with
  | none =>
    simp only [step, hk]
    exact ⟨h.1, h.2.1, h.2.2⟩
  | some x =>
    have hmem : x ∈ cfg.handles := mem_of_getElem?_rc hk
    have hv := h.2.2 x hmem
    cases hget : cfg.s.arena.get x.inner with
    | none => rw [hget] at hv; simp at hv
    | some e =>
      rw [hget] at hv
      simp only [Option.map_some'] at hv
      have he : e.cntId = x.cntId := by injection hv
      have hbump := InvG_bump_cons h hget
      rw [he] at hbump
      simp only [step, hk]
      exact hbump

theorem InvG_dropStep {cfg : Config α} (h : InvG cfg) (k : Nat) :
    InvG (step cfg (.dropOp k)) := by
  cases hk : cfg.handles[k]? with
  | none =>
    simp only [step, hk]
    exact ⟨h.1, h.2.1, h.2.2⟩
  | some x =>
    have hmem : x ∈ cfg.handles := mem_of_getElem?_rc hk
    have hlt : x.cntId < cfg.s.cells.length := handle_cntId_lt h hmem
    simp only [step, hk]
    refine ⟨WFget_set_cells h.1 (by simp), ?_, ?_⟩
    · intro c
      have hcnt := countHandles_eraseIdx cfg.handles k x hk c
      by_cases hc : c = x.cntId
      · rw [hc]
        show cellGet (cellDec cfg.s.cells x.cntId) x.cntId =
          countHandles (cfg.handles.eraseIdx k) x.cntId
        rw [cellGet_cellDec_self cfg.s.cells hlt, h.2.1 x.cntId]
        have hpos := countHandles_pos hmem rfl
        rw [hc] at hcnt
        simp at hcnt
        omega
      · show cellGet (cellDec cfg.s.cells x.cntId) c =
          countHandles (cfg.handles.eraseIdx k) c
        rw [cellGet_cellDec_ne cfg.s.cells hc, h.2.1 c]
        rw [if_neg (fun he => hc he.symm)] at hcnt
        omega
    · intro x' hx'
      exact h.2.2 x' ((List.eraseIdx_sublist cfg.handles k).subset hx')

theorem InvG_dropUnusedStep {cfg : Config α} (h : InvG cfg) :
    InvG (step cfg .dropUnusedOp) := by
  refine ⟨WFget_drop_unused h.1, ?_, ?_⟩
  · intro c
    show cellGet (cfg.s.drop_unused).2.cells c = _
    rw [drop_unused_cells]
    exact h.2.1 c
  · intro x hx
    have hx' : x ∈ cfg.handles := hx
    have hv := h.2.2 x hx'
    cases hget : cfg.s.arena.get x.inner with
    | none => rw [hget] at hv; simp at hv
    | some e =>
      rw [hget] at hv
      simp only [Option.map_some'] at hv
      have he : e.cntId = x.cntId := by injection hv
      have hdead : deadP cfg.s e = false := by
        rw [deadP_eq_false_iff]
        rw [h.2.1 e.cntId, he]
        have := countHandles_pos hx' rfl
        omega
      have hget' : (cfg.s.drop_unused).2.arena.get x.inner = some e :=
        (get_drop_unused cfg.s x.inner e).mpr ⟨hget, hdead⟩
      show ((cfg.s.drop_unused).2.arena.get x.inner).map Entry.cntId = some x.cntId
      rw [hget', Option.map_some', he]

theorem InvG_step {cfg : Config α} (h : InvG cfg) (op : Op α) :
    InvG (step cfg op) := by
  cases op with
  | insertOp v => exact InvG_insertStep h v
  | getOrInsertOp v => exact InvG_getOrInsertStep h v
  | lookupHandleOp v => exact InvG_lookupHandleStep h v
  | cloneOp k => exact InvG_cloneStep h k
  | dropOp k => exact InvG_dropStep h k
  | dropUnusedOp => exact InvG_dropUnusedStep h

theorem InvG_foldl (ops : List (Op α)) :
    ∀ cfg : Config α, InvG cfg → InvG (ops.foldl step cfg) := by
  induction ops with
  | nil => intro cfg h; exact h
  | cons op rest ih =>
    intro cfg h
    exact ih (step cfg op) (InvG_step h op)

theorem InvG_runOps (ops : List (Op α)) : InvG (runOps ops) := by
  apply InvG_foldl
  refine ⟨WFget_new, ?_, ?_⟩
  · intro c
    show cellGet [] c = countHandles [] c
    simp [cellGet, countHandles]
  · intro x hx
    simp [IndexedHashSet.new] at hx

/-! Auxiliary lemmas for idempotence of `drop_unused`. -/

theorem collectP_eq_nil {p : Entry α → Bool} {items : List (Slot (Entry α))}
    (h : ∀ slot ∈ items, slotP p slot = false) (n : Nat) :
    collectP p n items = [] := by
  induction items generalizing n with
  | nil => rfl
  | cons z rest ih =>
    have hz := h z (List.mem_cons_self _ _)
    have hrest : ∀ slot ∈ rest, slotP p slot = false :=
      fun slot hs => h slot (List.mem_cons_of_mem _ hs)
    cases z with
    | free g => simpa [collectP] using ih hrest (n + 1)
    | occupied g e =>
      have hpe : p e = false := by simpa [slotP] using hz
      simp [collectP, hpe]
      exact ih hrest (n + 1)

theorem sweep_eq_self {p : Entry α → Bool} {items : List (Slot (Entry α))}
    (h : ∀ slot ∈ items, slotP p slot = false) : sweep p items = items := by
  induction items with
  | nil => rfl
  | cons z rest ih =>
    have hz := h z (List.mem_cons_self _ _)
    have hrest : ∀ slot ∈ rest, slotP p slot = false :=
      fun slot hs => h slot (List.mem_cons_of_mem _ hs)
    cases z with
    | free g => simp [sweep, sweepSlot] at ih ⊢; exact ih hrest
    | occupied g e =>
      have hpe : p e = false := by simpa [slotP] using hz
      simp [sweep, sweepSlot, hpe] at ih ⊢
      exact ih hrest

theorem drop_unused_of_nodead (t : IndexedHashSet α)
    (h : ∀ slot ∈ t.arena.items, slotP (deadP t) slot = false) :
    t.drop_unused = (0, t) := by
  have hcol : collectP (fun e => cellGet t.cells e.cntId == 0) 0 t.arena.items = [] :=
    collectP_eq_nil h 0
  have hsweep : sweep (fun e => cellGet t.cells e.cntId == 0) t.arena.items =
      t.arena.items := sweep_eq_self h
  have e1 : t.drop_unused =
      (t.arena.len -
        Arena.len ⟨sweep (fun e => cellGet t.cells e.cntId == 0) t.arena.items,
          ((collectP (fun e => cellGet t.cells e.cntId == 0) 0
            t.arena.items).map Prod.fst).reverse ++ t.arena.freeList⟩,
       { arena := ⟨sweep (fun e => cellGet t.cells e.cntId == 0) t.arena.items,
          ((collectP (fun e => cellGet t.cells e.cntId == 0) 0
            t.arena.items).map Prod.fst).reverse ++ t.arena.freeList⟩,
         map := (collectP (fun e => cellGet t.cells e.cntId == 0) 0
            t.arena.items).foldl (fun m pr => mapErase m pr.2.elem) t.map,
         cells := t.cells }) := rfl
  rw [e1, hcol, hsweep]
  simp

/-! Claim theorems. -/

/-- C4 counterexample: a handle obtained from one container instance, used
against a different instance, need not be reported as absent.  Inserting `0`
into a fresh set yields the handle with arena index `(0, 0)`; looking that
handle up in a second fresh set holding `1` succeeds and returns `1`, and
direct indexing does not panic. -/
theorem foreign_handle_counterexample :
    (IndexedHashSet.new.insert (0 : Nat)).1 = some ⟨⟨0, 0⟩, 0⟩ ∧
    (IndexedHashSet.new.insert (1 : Nat)).2.get_ref_by_index ⟨⟨0, 0⟩, 0⟩ = some 1 ∧
    indexPanics (IndexedHashSet.new.insert (1 : Nat)).2 ⟨⟨0, 0⟩, 0⟩ = false := by
  refine ⟨?_, ?_, ?_⟩ <;> rfl

/-- C4 (amended): using any handle against any container, the fallible
accessor `get_ref_by_index` returns the value stored at the handle's slot
and generation when that slot is occupied in this container — even for a
handle made by a different container — and returns absence otherwise; the
direct-indexing form `set[&rc_idx]` panics exactly in the absence case. -/
theorem foreign_handle_spec (sB : IndexedHashSet α) (h : RcIndex) :
    (∃ e, sB.arena.get h.inner = some e ∧ sB.get_ref_by_index h = some e.elem) ∨
    (sB.get_ref_by_index h = none ∧ indexPanics sB h = true) := by
  cases hget : sB.arena.get h.inner with
  | none =>
    right
    constructor
    · show (sB.arena.get h.inner).map Entry.elem = none
      rw [hget]
      rfl
    · show ((sB.arena.get h.inner).map Entry.elem).isNone = true
      rw [hget]
      rfl
  | some e =>
    left
    refine ⟨e, rfl, ?_⟩
    show (sB.arena.get h.inner).map Entry.elem = some e.elem
    rw [hget]
    rfl

/-- C9: if `insert` returns a handle, then looking that handle up in the
resulting set with the fallible accessor returns the inserted value, and the
direct-indexing form does not panic. -/
theorem insert_roundtrip (s : IndexedHashSet α) (v : α) {rc : RcIndex}
    {s' : IndexedHashSet α} (h : s.insert v = (some rc, s')) :
    s'.get_ref_by_index rc = some v ∧ indexPanics s' rc = false := by
  by_cases hpre : (mapFind? s.map v).isSome
  · have hred : s.insert v = (none, s) := by
      simp [IndexedHashSet.insert, hpre]
    rw [hred] at h
    exact absurd (congrArg Prod.fst h) (by simp)
  · have hred : s.insert v =
        (some (s.insert_unchecked v).1, (s.insert_unchecked v).2) := by
      simp [IndexedHashSet.insert, Option.not_isSome_iff_eq_none.mp hpre]
    rw [hred] at h
    have h1 : some (s.insert_unchecked v).1 = some rc := congrArg Prod.fst h
    have h2 : (s.insert_unchecked v).2 = s' := congrArg Prod.snd h
    have hrc : (s.insert_unchecked v).1 = rc := by injection h1
    subst hrc
    subst h2
    constructor
    · show ((s.insert_unchecked v).2.arena.get (s.insert_unchecked v).1.inner).map
        Entry.elem = some v
      rw [get_insert_unchecked_self]
      rfl
    · show ((s.insert_unchecked v).2.get_ref_by_index (s.insert_unchecked v).1).isNone
        = false
      show (((s.insert_unchecked v).2.arena.get (s.insert_unchecked v).1.inner).map
        Entry.elem).isNone = false
      rw [get_insert_unchecked_self]
      rfl

/-- C9 witness: inserting `5` into the empty set and looking the returned
handle up yields `5` without panicking. -/
theorem insert_roundtrip_witness :
    (IndexedHashSet.new.insert (5 : Nat)).2.get_ref_by_index
        ⟨⟨0, 0⟩, 0⟩ = some 5 ∧
      indexPanics (IndexedHashSet.new.insert (5 : Nat)).2 ⟨⟨0, 0⟩, 0⟩ = false :=
  insert_roundtrip IndexedHashSet.new 5 (by decide)

/-- C10: `drop_unused` is idempotent — immediately after one pass, a second
pass removes nothing, returns 0 and leaves the set unchanged. -/
theorem drop_unused_idempotent (s : IndexedHashSet α) :
    (s.drop_unused).2.drop_unused = (0, (s.drop_unused).2) := by
  apply drop_unused_of_nodead
  intro slot hslot
  rw [drop_unused_items] at hslot
  rcases List.mem_map.mp hslot with ⟨slot₀, _, hs⟩
  subst hs
  have hde : deadP (s.drop_unused).2 = deadP s := rfl
  rw [hde]
  cases slot₀ with
  | free g => rfl
  | occupied g e =>
    by_cases hd : deadP s e
    · simp [sweepSlot, hd, slotP]
    · simp only [Bool.not_eq_true] at hd
      simp [sweepSlot, hd, slotP]

/-- C1: counter accuracy — after any interleaving of client operations
(inserts, lookups that create handles, clones, handle drops, reclamations)
starting from the empty set, every live entry's usage counter, as reported
by `get_cnt` on its value and as read through `RcIndex::cnt` on any live
handle, equals the number of live handles sharing that entry's counter cell.
Each handle construction adds one live handle and each destruction removes
one, so this count is exactly k − j after k constructions and j
destructions. -/
theorem counter_accuracy (ops : List (Op α)) :
    (∀ i e, (runOps ops).s.arena.get i = some e →
      (runOps ops).s.get_cnt e.elem =
        some (countHandles (runOps ops).handles e.cntId)) ∧
    (∀ x ∈ (runOps ops).handles,
      rcCnt (runOps ops).s x = countHandles (runOps ops).handles x.cntId) := by
  have hI := InvG_runOps ops
  constructor
  · intro i e hget
    have hfind := (hI.1.2.2.1 i e hget).1
    simp only [IndexedHashSet.get_cnt, hfind, hget]
    rw [hI.2.1 e.cntId]
  · intro x hx
    show cellGet (runOps ops).s.cells x.cntId = _
    exact hI.2.1 x.cntId

/-- C1 witness: after a single insert of `5`, the entry's reported count is
the number of live handles sharing counter cell 0. -/
theorem counter_accuracy_witness :
    (runOps [Op.insertOp (5 : Nat)]).s.get_cnt 5 =
      some (countHandles (runOps [Op.insertOp (5 : Nat)]).handles 0) :=
  (counter_accuracy [Op.insertOp 5]).1 ⟨0, 0⟩ ⟨5, 0⟩ (by decide)

/-- C8: uniqueness — after any sequence of client operations from the empty
set, at most one live entry exists per distinct value (two occupied slots
holding equal values are the same slot with the same entry); inserting an
already-present value returns absence and leaves `len()` unchanged. -/
theorem uniqueness_inv (ops : List (Op α)) :
    (∀ i e i' e', (runOps ops).s.arena.get i = some e →
      (runOps ops).s.arena.get i' = some e' → e.elem = e'.elem →
      i = i' ∧ e = e') ∧
    (∀ v i e, (runOps ops).s.arena.get i = some e → e.elem = v →
      ((runOps ops).s.insert v).1 = none ∧
        ((runOps ops).s.insert v).2.len = (runOps ops).s.len) := by
  have hI := InvG_runOps ops
  constructor
  · intro i e i' e' h1 h2 he
    exact hI.1.unique h1 h2 he
  · intro v i e hget he
    have hsome : (mapFind? (runOps ops).s.map v).isSome :=
      (hI.1.present_iff v).mpr ⟨i, e, hget, he⟩
    have hred : (runOps ops).s.insert v = (none, (runOps ops).s) := by
      simp [IndexedHashSet.insert, hsome]
    rw [hred]
    exact ⟨rfl, rfl⟩

/-- C8 witness: after inserting `1`, inserting `1` again returns absence
and leaves the length unchanged. -/
theorem uniqueness_inv_witness :
    ((runOps [Op.insertOp (1 : Nat)]).s.insert 1).1 = none ∧
      ((runOps [Op.insertOp (1 : Nat)]).s.insert 1).2.len =
        (runOps [Op.insertOp (1 : Nat)]).s.len :=
  (uniqueness_inv [Op.insertOp 1]).2 1 ⟨0, 0⟩ ⟨1, 0⟩ (by decide) (by decide)

/-- C3: `insert` returns absence and leaves the set completely unchanged
when an entry equal to the value is present; otherwise it adds exactly one
new entry holding the value (all other slots and counter cells unchanged),
returns a fresh handle whose counter reads 1, and `len` grows by one. -/
theorem insert_spec (s : IndexedHashSet α) (v : α) (hwf : WF s) :
    ((∃ i e, s.arena.get i = some e ∧ e.elem = v) → s.insert v = (none, s)) ∧
    ((¬∃ i e, s.arena.get i = some e ∧ e.elem = v) →
      ∃ rc s', s.insert v = (some rc, s') ∧
        rcCnt s' rc = 1 ∧
        s'.arena.get rc.inner = some ⟨v, rc.cntId⟩ ∧
        s.arena.get rc.inner = none ∧
        (∀ i, i ≠ rc.inner → s'.arena.get i = s.arena.get i) ∧
        (∀ c, c ≠ rc.cntId → cellGet s'.cells c = cellGet s.cells c) ∧
        s'.len = s.len + 1) := by
  have hg := (WF_iff_WFget s).mp hwf
  constructor
  · intro ⟨i, e, hget, he⟩
    have hsome := (hg.present_iff v).mpr ⟨i, e, hget, he⟩
    simp [IndexedHashSet.insert, hsome]
  · intro habs
    have hnone : mapFind? s.map v = none := by
      rw [← Option.not_isSome_iff_eq_none]
      intro hs
      exact habs ((hg.present_iff v).mp hs)
    refine ⟨(s.insert_unchecked v).1, (s.insert_unchecked v).2, ?_, ?_, ?_, ?_, ?_, ?_, ?_⟩
    · simp [IndexedHashSet.insert, hnone]
    · show cellGet (s.insert_unchecked v).2.cells s.cells.length = 1
      rw [insert_unchecked_cells]
      exact cellGet_append_self s.cells 1
    · exact get_insert_unchecked_self s v
    · exact get_insert_unchecked_fresh s v
    · intro i hi
      exact get_insert_unchecked_ne s v hi
    · intro c hc
      rw [insert_unchecked_cells]
      exact cellGet_append_ne s.cells 1 hc
    · exact len_insert_unchecked s v

/-- C3 witness: inserting `5` into the empty set succeeds with all the
stated consequences. -/
theorem insert_spec_witness :
    ∃ rc s', (IndexedHashSet.new : IndexedHashSet Nat).insert 5 = (some rc, s') ∧
      rcCnt s' rc = 1 ∧
      s'.arena.get rc.inner = some ⟨5, rc.cntId⟩ ∧
      (IndexedHashSet.new : IndexedHashSet Nat).arena.get rc.inner = none ∧
      (∀ i, i ≠ rc.inner →
        s'.arena.get i = (IndexedHashSet.new : IndexedHashSet Nat).arena.get i) ∧
      (∀ c, c ≠ rc.cntId →
        cellGet s'.cells c = cellGet (IndexedHashSet.new : IndexedHashSet Nat).cells c) ∧
      s'.len = (IndexedHashSet.new : IndexedHashSet Nat).len + 1 :=
  (insert_spec IndexedHashSet.new 5 (by decide)).2 (fun ⟨i, e, hget, _⟩ => by
    rw [Arena.get_eq_some_iff] at hget
    simp [IndexedHashSet.new] at hget)

/-- C5: `get_ref_by_hash` returns the stored value (equal to the query)
exactly when the map has the query, and that holds precisely when an entry
equal to the query exists in the arena, regardless of its counter value; the
operation is a pure read — it returns no handle and touches no counter
cell. -/
theorem lookup_value_spec (s : IndexedHashSet α) (v : α) (hwf : WF s) :
    (s.get_ref_by_hash v =
      if (mapFind? s.map v).isSome then some v else none) ∧
    ((s.get_ref_by_hash v).isSome ↔
      ∃ i e, s.arena.get i = some e ∧ e.elem = v) := by
  have hg := (WF_iff_WFget s).mp hwf
  have h1 : s.get_ref_by_hash v =
      if (mapFind? s.map v).isSome then some v else none :=
    mapFindKey?_eq s.map v
  refine ⟨h1, ?_⟩
  rw [h1]
  by_cases hs : (mapFind? s.map v).isSome
  · simp only [if_pos hs, Option.isSome_some, true_iff]
    exact (hg.present_iff v).mp hs
  · simp only [if_neg hs]
    constructor
    · intro h
      simp at h
    · intro hex
      exact absurd ((hg.present_iff v).mpr hex) hs

/-- C5 witness: after inserting `5`, looking up `5` returns it and presence
matches existence of the entry. -/
theorem lookup_value_spec_witness :
    ((runOps [Op.insertOp (5 : Nat)]).s.get_ref_by_hash 5 =
      if (mapFind? (runOps [Op.insertOp (5 : Nat)]).s.map 5).isSome
        then some 5 else none) ∧
    (((runOps [Op.insertOp (5 : Nat)]).s.get_ref_by_hash 5).isSome ↔
      ∃ i e, (runOps [Op.insertOp (5 : Nat)]).s.arena.get i = some e ∧
        e.elem = 5) :=
  lookup_value_spec (runOps [Op.insertOp (5 : Nat)]).s 5 (by decide)

/-- C6: `iter` yields exactly the values of entries whose usage counter is
nonzero, each exactly once; as a pure function of the state it is
deterministic, so two calls with no intervening mutation yield the same
sequence. -/
theorem iter_spec (s : IndexedHashSet α) (hwf : WF s) :
    (∀ v, v ∈ s.iter ↔ ∃ i e, s.arena.get i = some e ∧ e.elem = v ∧
      cellGet s.cells e.cntId ≠ 0) ∧
    s.iter.Nodup := by
  have hg := (WF_iff_WFget s).mp hwf
  constructor
  · intro v
    constructor
    · intro hv
      rcases List.mem_map.mp hv with ⟨pr, hpr, hel⟩
      have hpr' : (pr.1, pr.2) ∈
          collectP (fun e => cellGet s.cells e.cntId != 0) 0 s.arena.items := by
        simpa using hpr
      rcases collectP_mem_zero_iff.mp hpr' with ⟨⟨g, hgj⟩, hp⟩
      refine ⟨⟨pr.1, g⟩, pr.2, ?_, hel, ?_⟩
      · rw [Arena.get_eq_some_iff]
        exact hgj
      · simpa using hp
    · intro ⟨i, e, hget, hel, hcnt⟩
      apply List.mem_map.mpr
      refine ⟨(i.idx, e), ?_, hel⟩
      rw [collectP_mem_zero_iff]
      rw [Arena.get_eq_some_iff] at hget
      exact ⟨⟨i.gen, hget⟩, by simpa using hcnt⟩
  · show ((collectP (fun e => cellGet s.cells e.cntId != 0) 0 s.arena.items).map
      (fun pr => pr.2.elem)).Nodup
    have hfst := collectP_fst_nodup (fun e => cellGet s.cells e.cntId != 0)
      s.arena.items 0
    rw [List.Nodup, List.pairwise_map] at hfst
    have hpw₂ : (collectP (fun e => cellGet s.cells e.cntId != 0) 0
        s.arena.items).Pairwise (fun a b => a.2.elem ≠ b.2.elem) := by
      refine hfst.imp_of_mem ?_
      intro a b ha hb hne helem
      have ha' : (a.1, a.2) ∈
          collectP (fun e => cellGet s.cells e.cntId != 0) 0 s.arena.items := by
        simpa using ha
      have hb' : (b.1, b.2) ∈
          collectP (fun e => cellGet s.cells e.cntId != 0) 0 s.arena.items := by
        simpa using hb
      rcases collectP_mem_zero_iff.mp ha' with ⟨⟨g1, h1⟩, _⟩
      rcases collectP_mem_zero_iff.mp hb' with ⟨⟨g2, h2⟩, _⟩
      have hga : s.arena.get ⟨a.1, g1⟩ = some a.2 :=
        (Arena.get_eq_some_iff _ _ _).mpr h1
      have hgb : s.arena.get ⟨b.1, g2⟩ = some b.2 :=
        (Arena.get_eq_some_iff _ _ _).mpr h2
      have huniq := hg.unique hga hgb helem
      exact hne (congrArg AIndex.idx huniq.1)
    rw [List.Nodup, List.pairwise_map]
    exact hpw₂

/-- C6 witness: after inserting `5` and `6` and dropping the handle of `6`,
iteration yields exactly the live value `5`, without duplicates. -/
theorem iter_spec_witness :
    (∀ v, v ∈ (runOps [Op.insertOp (5 : Nat), Op.insertOp 6, Op.dropOp 0]).s.iter ↔
      ∃ i e, (runOps [Op.insertOp (5 : Nat), Op.insertOp 6,
          Op.dropOp 0]).s.arena.get i = some e ∧ e.elem = v ∧
        cellGet (runOps [Op.insertOp (5 : Nat), Op.insertOp 6,
          Op.dropOp 0]).s.cells e.cntId ≠ 0) ∧
    (runOps [Op.insertOp (5 : Nat), Op.insertOp 6, Op.dropOp 0]).s.iter.Nodup :=
  iter_spec (runOps [Op.insertOp (5 : Nat), Op.insertOp 6, Op.dropOp 0]).s (by decide)

/-- C7: `get_or_insert` always succeeds: it returns a handle to the entry
holding the value — the existing entry when the value is present, a freshly
inserted one otherwise — and the construction of that handle increments the
target entry's usage counter by exactly one relative to before the call. -/
theorem get_or_insert_spec (s : IndexedHashSet α) (v : α) (hwf : WF s) :
    ∃ rc s' e, s.get_or_insert v = some (rc, s') ∧
      s'.arena.get rc.inner = some e ∧ e.elem = v ∧ e.cntId = rc.cntId ∧
      cellGet s'.cells rc.cntId = cellGet s.cells rc.cntId + 1 ∧
      (mapFind? s.map v = some rc.inner ∨
        (mapFind? s.map v = none ∧ s.arena.get rc.inner = none)) := by
  have hg := (WF_iff_WFget s).mp hwf
  cases hf : mapFind? s.map v with
  | some a =>
    rcases hg.mapFind?_sound hf with ⟨e, hget, hel⟩
    have hlt := (hg.2.2.1 a e hget).2
    refine ⟨⟨a, e.cntId⟩, { s with cells := cellBump s.cells e.cntId }, e,
      ?_, hget, hel, rfl, ?_, ?_⟩
    · simp [IndexedHashSet.get_or_insert, hf, IndexedHashSet.aidx_to_rcidx, hget]
    · show cellGet (cellBump s.cells e.cntId) e.cntId = cellGet s.cells e.cntId + 1
      exact cellGet_cellBump_self s.cells hlt
    · left
      rfl
  | none =>
    refine ⟨(s.insert_unchecked v).1, (s.insert_unchecked v).2,
      ⟨v, s.cells.length⟩, ?_, ?_, rfl, rfl, ?_, ?_⟩
    · simp [IndexedHashSet.get_or_insert, hf]
    · exact get_insert_unchecked_self s v
    · show cellGet (s.insert_unchecked v).2.cells s.cells.length =
        cellGet s.cells s.cells.length + 1
      rw [insert_unchecked_cells, cellGet_append_self,
        cellGet_of_le s.cells (le_refl s.cells.length)]
    · right
      exact ⟨rfl, get_insert_unchecked_fresh s v⟩

/-- C7 witness: `get_or_insert 7` on the empty set succeeds with all the
stated consequences. -/
theorem get_or_insert_spec_witness :
    ∃ rc s' e, (IndexedHashSet.new : IndexedHashSet Nat).get_or_insert 7 =
        some (rc, s') ∧
      s'.arena.get rc.inner = some e ∧ e.elem = 7 ∧ e.cntId = rc.cntId ∧
      cellGet s'.cells rc.cntId =
        cellGet (IndexedHashSet.new : IndexedHashSet Nat).cells rc.cntId + 1 ∧
      (mapFind? (IndexedHashSet.new : IndexedHashSet Nat).map 7 = some rc.inner ∨
        (mapFind? (IndexedHashSet.new : IndexedHashSet Nat).map 7 = none ∧
          (IndexedHashSet.new : IndexedHashSet Nat).arena.get rc.inner = none)) :=
  get_or_insert_spec IndexedHashSet.new 7 (by decide)

/-- C2: `drop_unused` removes exactly the entries whose usage counter is 0
(deleting their value-index map entries as well), leaves every entry with a
positive counter untouched, returns the number of entries removed, and the
length decreases by exactly the returned amount. -/
theorem drop_unused_spec (s : IndexedHashSet α) (hwf : WF s) :
    (s.drop_unused).1 = s.arena.items.countP (slotP (deadP s)) ∧
    (s.drop_unused).2.len = s.len - (s.drop_unused).1 ∧
    (∀ i e, (s.drop_unused).2.arena.get i = some e ↔
      (s.arena.get i = some e ∧ cellGet s.cells e.cntId ≠ 0)) ∧
    (∀ v a, mapFind? (s.drop_unused).2.map v = some a ↔
      (mapFind? s.map v = some a ∧
        ∃ e, s.arena.get a = some e ∧ cellGet s.cells e.cntId ≠ 0)) := by
  have hg := (WF_iff_WFget s).mp hwf
  refine ⟨?_, ?_, ?_, ?_⟩
  · rw [drop_unused_fst, length_collectP]
  · exact len_drop_unused s
  · intro i e
    rw [get_drop_unused]
    constructor
    · intro ⟨h1, h2⟩
      exact ⟨h1, (deadP_eq_false_iff s e).mp h2⟩
    · intro ⟨h1, h2⟩
      exact ⟨h1, (deadP_eq_false_iff s e).mpr h2⟩
  · intro v a
    rw [drop_unused_map_eq, foldl_mapErase_find? _ _ hg.2.1]
    constructor
    · intro hfind
      by_cases hmem : v ∈ (collectP (deadP s) 0 s.arena.items).map
          (fun pr => pr.2.elem)
      · rw [if_pos hmem] at hfind
        exact Option.noConfusion hfind
      · rw [if_neg hmem] at hfind
        refine ⟨hfind, ?_⟩
        rcases hg.mapFind?_sound hfind with ⟨e, hget, hel⟩
        refine ⟨e, hget, ?_⟩
        intro hzero
        apply hmem
        have hcol : (a.idx, e) ∈ collectP (deadP s) 0 s.arena.items := by
          rw [collectP_mem_zero_iff]
          rw [Arena.get_eq_some_iff] at hget
          exact ⟨⟨a.gen, hget⟩, (deadP_eq_true_iff s e).mpr hzero⟩
        rw [← hel]
        exact List.mem_map.mpr ⟨(a.idx, e), hcol, rfl⟩
    · intro ⟨hfind, e, hget, hcnt⟩
      have hmem : v ∉ (collectP (deadP s) 0 s.arena.items).map
          (fun pr => pr.2.elem) := by
        intro hmem
        rcases List.mem_map.mp hmem with ⟨pr, hpr, hel⟩
        have hpr' : (pr.1, pr.2) ∈ collectP (deadP s) 0 s.arena.items := by
          simpa using hpr
        rcases collectP_mem_zero_iff.mp hpr' with ⟨⟨g, hgj⟩, hdead⟩
        have hgb : s.arena.get ⟨pr.1, g⟩ = some pr.2 :=
          (Arena.get_eq_some_iff _ _ _).mpr hgj
        rcases hg.mapFind?_sound hfind with ⟨e', hget', hel'⟩
        have he'e : e' = e := by
          rw [hget] at hget'
          injection hget' with hh
          exact hh.symm
        have huniq := hg.unique hget' hgb (by rw [hel', hel])
        rw [← huniq.2, he'e] at hdead
        exact hcnt ((deadP_eq_true_iff s e).mp hdead)
      rw [if_neg hmem]
      exact hfind

/-- C2 witness: with `1` live and `2` unused, `drop_unused` removes exactly
the dead entry count. -/
theorem drop_unused_spec_witness :
    ((runOps [Op.insertOp (1 : Nat), Op.insertOp 2, Op.dropOp 0]).s.drop_unused).1 =
      (runOps [Op.insertOp (1 : Nat), Op.insertOp 2,
        Op.dropOp 0]).s.arena.items.countP
        (slotP (deadP (runOps [Op.insertOp (1 : Nat), Op.insertOp 2,
          Op.dropOp 0]).s)) :=
  (drop_unused_spec (runOps [Op.insertOp (1 : Nat), Op.insertOp 2,
    Op.dropOp 0]).s (by decide)).1

end IndexedHashSetSpec
